import Mathlib

set_option maxRecDepth 8000

/-!
Shallow embedding of the aipng repository's core logic: the content filter
(`filterAIResponse`), the image-URL extractors (`extractDataUris`,
`extractImageUrlsFromText`), the URL validator (`safeUrl`), the non-streaming
generation flows (`generate` in `src/app/page.tsx` and `doGenerate` in the
image-batch page), the stream ingestor (`generateStreamResponse`), the bounded
chat-history store (`addMessage`, `addRun`) and the download redirector
(`GET` in `src/app/api/download/route.ts`).

Strings are modelled as Lean `String`/`List Char`; JS string lengths count
UTF-16 code units while Lean counts code points — identical on the BMP text
used throughout this development.  The JS regexes of the source are hand
compiled into explicit matchers whose backtracking behaviour is noted at each
definition.
-/

/-- JS whitespace as used by `\s` and `String.prototype.trim` (the ASCII
subset; the unicode space classes never occur in the texts considered). -/
def isWsChar (c : Char) : Bool :=
  c = ' ' || c = '\t' || c = '\n' || c = '\r' || c = Char.ofNat 11 || c = Char.ofNat 12

def isDigitChar (c : Char) : Bool :=
  '0' ≤ c && c ≤ '9'

/-- Charset of the base64 portion of the data-URI regex in
`extractDataUris`: `[A-Za-z0-9+/=\-_]`. -/
def isB64Char (c : Char) : Bool :=
  let n := c.toNat
  (65 ≤ n && n ≤ 90) || (97 ≤ n && n ≤ 122) || (48 ≤ n && n ≤ 57) ||
  n = 43 || n = 47 || n = 61 || n = 45 || n = 95

/-- `String.prototype.trim` on a char list: drop leading and trailing
whitespace. -/
def trimList (l : List Char) : List Char :=
  ((l.dropWhile isWsChar).reverse.dropWhile isWsChar).reverse

/-- `s.trim()` of JS. -/
def jsTrim (s : String) : String :=
  String.mk (trimList s.data)

/-- One pass of a global-regex `replace`: at each position try the matcher;
on a match of length `k` (all matchers below consume at least one char) emit
the replacement and resume after the match, otherwise copy one character and
move on.  Fuel (always instantiated to at least the input length) bounds the
recursion. -/
def scanRep (m : List Char → Option (Nat × List Char)) : Nat → List Char → List Char
  | _, [] => []
  | 0, l => l
  | f+1, c :: cs =>
    match m (c :: cs) with
    | some (k, rep) => rep ++ scanRep m f (List.drop k (c :: cs))
    | none => c :: scanRep m f cs

/-- One pass of a global-regex `match`/`exec` loop: collect the matcher's
capture at each match position, resuming after each full match. -/
def scanCollect (m : List Char → Option (Nat × List Char)) : Nat → List Char → List (List Char)
  | _, [] => []
  | 0, _ => []
  | f+1, c :: cs =>
    match m (c :: cs) with
    | some (k, cap) => cap :: scanCollect m f (List.drop k (c :: cs))
    | none => scanCollect m f cs

/-- `true` iff the matcher fires at some position of the list (i.e. the
corresponding regex has a match somewhere in the string). -/
def anyMatch (m : List Char → Option (Nat × List Char)) : List Char → Bool
  | [] => (m []).isSome
  | c :: cs => (m (c :: cs)).isSome || anyMatch m cs

/-- Literal-prefix matcher; returns the remainder on success. -/
def litPrefix : List Char → List Char → Option (List Char)
  | [], l => some l
  | _ :: _, [] => none
  | p :: ps, c :: cs => if c = p then litPrefix ps cs else none

/-- Case-insensitive literal-prefix matcher (for the `/i` regex flags). -/
def litPrefixCI : List Char → List Char → Option (List Char)
  | [], l => some l
  | _ :: _, [] => none
  | p :: ps, c :: cs => if c.toLower = p.toLower then litPrefixCI ps cs else none

def expectChar (d : Char) : List Char → Option (List Char)
  | c :: cs => if c = d then some cs else none
  | [] => none

/-- Exactly `n` digits. -/
def takeDigits : Nat → List Char → Option (List Char)
  | 0, l => some l
  | _+1, [] => none
  | n+1, c :: cs => if isDigitChar c then takeDigits n cs else none

/-- `\d{1,2}` immediately followed by a literal delimiter `d`, consuming the
delimiter.  Greedy with backtracking: two digits then `d`, else one digit then
`d` (since `d` is never a digit no deeper backtracking can occur). -/
def d12Delim (d : Char) (l : List Char) : Option (List Char) :=
  match l with
  | a :: b :: c :: rest =>
    if isDigitChar a && isDigitChar b && c = d then some rest
    else if isDigitChar a && b = d then some (c :: rest)
    else none
  | [a, b] => if isDigitChar a && b = d then some [] else none
  | _ => none

/-- `\s+` (greedy; the pattern following it is `\d`, disjoint from `\s`, so
the maximal run is the only viable choice). -/
def wsPlus (l : List Char) : Option (List Char) :=
  match l with
  | c :: cs => if isWsChar c then some (cs.dropWhile isWsChar) else none
  | [] => none

/-- `\d{1,2}\s+`: greedy digits (two if the second char is a digit, else one)
followed by mandatory whitespace; backtracking from two digits to one cannot
help because the second digit is not whitespace. -/
def d12ThenWs (l : List Char) : Option (List Char) :=
  match l with
  | a :: rest =>
    if isDigitChar a then
      match rest with
      | b :: rest2 => if isDigitChar b then wsPlus rest2 else wsPlus rest
      | [] => none
    else none
  | [] => none

/-- Final `\d{1,2}` of the timestamp (no trailing context): greedily two
digits if available, else one. -/
def d12End (l : List Char) : Option (List Char) :=
  match l with
  | a :: b :: rest =>
    if isDigitChar a && isDigitChar b then some rest
    else if isDigitChar a then some (b :: rest)
    else none
  | [a] => if isDigitChar a then some [] else none
  | [] => none

/-- Tail after matching `\d{4}\/\d{1,2}\/\d{1,2}\s+\d{1,2}:\d{1,2}:\d{1,2}`
at the head of the list. -/
def tsTail (l : List Char) : Option (List Char) := do
  let r ← takeDigits 4 l
  let r ← expectChar '/' r
  let r ← d12Delim '/' r
  let r ← d12ThenWs r
  let r ← d12Delim ':' r
  let r ← d12Delim ':' r
  d12End r

/-- Matcher for the timestamp regex of `filterAIResponse`
(`/\d{4}\/\d{1,2}\/\d{1,2}\s+\d{1,2}:\d{1,2}:\d{1,2}/g`), replaced by the
empty string. -/
def matchTimestamp (l : List Char) : Option (Nat × List Char) :=
  match tsTail l with
  | some rest => some (l.length - rest.length, [])
  | none => none

/-- Matcher for the literal `*Thinking...*` (13 chars), replaced by the empty
string. -/
def matchThinking (l : List Char) : Option (Nat × List Char) :=
  match litPrefix ("*Thinking...*".data) l with
  | some _ => some (13, [])
  | none => none

/-- The lookahead `(?=\n\n|\n[^>]|$)` of the block-quote regex (no `/m` flag,
so `$` is end of input only). -/
def bqLookahead (l : List Char) : Bool :=
  match l with
  | [] => true
  | '\n' :: '\n' :: _ => true
  | '\n' :: c :: _ => c ≠ '>'
  | _ => false

/-- Lazy `[\s\S]*?` up to the lookahead: number of chars consumed (smallest
prefix after which the lookahead holds; at end of input `$` holds). -/
def bqLazy : List Char → Nat
  | [] => 0
  | c :: cs => if bqLookahead (c :: cs) then 0 else 1 + bqLazy cs

/-- Matcher for `/>\s*\*\*[\s\S]*?(?=\n\n|\n[^>]|$)/g` of `filterAIResponse`,
replaced by the empty string.  `\s*` is the maximal whitespace run (a shorter
choice would still face a whitespace char where `*` is required). -/
def matchBlockquote (l : List Char) : Option (Nat × List Char) :=
  match l with
  | '>' :: rest =>
    let ws := rest.takeWhile isWsChar
    match rest.drop ws.length with
    | '*' :: '*' :: body => some (1 + ws.length + 2 + bqLazy body, [])
    | _ => none
  | _ => none

/-- Matcher for `/\n\s*\n\s*\n/g`, replaced by `\n\n`.  With both `\s*`
greedy-with-backtracking, a successful match starting at a `\n` always
extends exactly to the last `\n` of the maximal whitespace run at that
position, and succeeds iff that run contains at least three `\n`. -/
def matchTriple (l : List Char) : Option (Nat × List Char) :=
  match l with
  | '\n' :: _ =>
    let w := l.takeWhile isWsChar
    if 3 ≤ w.count '\n' then
      some (w.length - (w.reverse.takeWhile (fun c => c ≠ '\n')).length, ['\n', '\n'])
    else none
  | _ => none

/-- Number of newlines in the leading whitespace run of a character list;
`matchTriple` fires exactly when this is at least three. -/
def nlRun (l : List Char) : Nat := (l.takeWhile isWsChar).count '\n'

/-- `filterAIResponse` from the chat page: strip timestamps, strip the
`*Thinking...*` marker, strip `> **`-led reasoning blocks, collapse 3+ line
breaks to 2, trim. -/
def filterAIResponse (text : String) : String :=
  let f1 := scanRep matchTimestamp (text.data.length + 1) text.data
  let f2 := scanRep matchThinking (f1.length + 1) f1
  let f3 := scanRep matchBlockquote (f2.length + 1) f2
  let f4 := scanRep matchTriple (f3.length + 1) f3
  String.mk (trimList f4)

/-- `https?:\/\/` (case-insensitive, as both URL regexes carry the `/i`
flag): length of the scheme prefix matched, trying the `s` alternative of
`s?` first as the greedy engine does. -/
def httpPrefixCI (l : List Char) : Option Nat :=
  match litPrefixCI ("https://".data) l with
  | some _ => some 8
  | none =>
    match litPrefixCI ("http://".data) l with
    | some _ => some 7
    | none => none

/-- Matcher for the data-URI regex of `extractDataUris`
(`/data:image\/(png|jpe?g|webp);base64,[A-Za-z0-9+/=\-_]+/g`); capture is the
full match. -/
def matchDataUri (l : List Char) : Option (Nat × List Char) :=
  match litPrefix ("data:image/".data) l with
  | none => none
  | some r =>
    match (litPrefix ("png".data) r) <|> (litPrefix ("jpeg".data) r) <|>
          (litPrefix ("jpg".data) r) <|> (litPrefix ("webp".data) r) with
    | none => none
    | some r2 =>
      match litPrefix (";base64,".data) r2 with
      | none => none
      | some r3 =>
        match r3 with
        | c :: _ =>
          if isB64Char c then
            let rest := r3.dropWhile isB64Char
            let k := l.length - rest.length
            some (k, l.take k)
          else none
        | [] => none

/-- `t.match(re) || []` with the data-URI regex. -/
def extractDataUris (t : String) : List String :=
  (scanCollect matchDataUri (t.data.length + 1) t.data).map String.mk

/-- Matcher for the Markdown-image regex
`/!\[[^\]]*\]\((https?:\/\/[^)\s]+)\)/gi`; returns (full match length,
capture group 1). -/
def matchMd (l : List Char) : Option (Nat × List Char) :=
  match l with
  | '!' :: '[' :: rest =>
    let alt := rest.takeWhile (fun c => c ≠ ']')
    match rest.drop alt.length with
    | ']' :: '(' :: r2 =>
      match httpPrefixCI r2 with
      | none => none
      | some plen =>
        let run := (r2.drop plen).takeWhile (fun c => !(c = ')' || isWsChar c))
        if run.length = 0 then none
        else
          match (r2.drop plen).drop run.length with
          | ')' :: _ =>
            some (2 + alt.length + 2 + (plen + run.length) + 1, r2.take (plen + run.length))
          | _ => none
    | _ => none
  | _ => none

/-- The negated character class of the bare-URL regex:
`[^\s\)\]\}<'">,，。；、]`. -/
def bareExclChar (c : Char) : Bool :=
  isWsChar c || c = ')' || c = ']' || c = Char.ofNat 125 || c = '<' ||
  c = Char.ofNat 39 || c = Char.ofNat 34 || c = '>' || c = ',' ||
  c = '，' || c = '。' || c = '；' || c = '、'

/-- The trailing-punctuation class stripped from each bare-URL match:
`/[>,，。；、]+$/`. -/
def trailPunct (c : Char) : Bool :=
  c = '>' || c = ',' || c = '，' || c = '。' || c = '；' || c = '、'

/-- Matcher for the bare-URL regex `/(https?:\/\/[^\s\)\]\}<'">,，。；、]+)/gi`;
returns (full match length, capture with `[>,，。；、]+$` stripped as the
source does on each match). -/
def matchBare (l : List Char) : Option (Nat × List Char) :=
  match httpPrefixCI l with
  | none => none
  | some plen =>
    let run := (l.drop plen).takeWhile (fun c => !bareExclChar c)
    if run.length = 0 then none
    else
      let cap := l.take (plen + run.length)
      some (plen + run.length, (cap.reverse.dropWhile trailPunct).reverse)

/-- `Array.from(new Set(xs))`: de-duplicate keeping first occurrences. -/
def dedupKeepFirst (l : List String) : List String :=
  l.foldl (fun acc s => if acc.contains s then acc else acc ++ [s]) []

/-- `extractImageUrlsFromText` (identical in both pages): Markdown-image
captures first, then bare-URL matches with trailing punctuation stripped,
de-duplicated in insertion order. -/
def extractImageUrlsFromText (t : String) : List String :=
  if t = "" then []
  else
    dedupKeepFirst
      (((scanCollect matchMd (t.data.length + 1) t.data) ++
        (scanCollect matchBare (t.data.length + 1) t.data)).map String.mk)

/-! ## URL validator

`safeUrl` (identical in both pages) calls the platform primitive
`new URL(u, location.href)`.  The WHATWG parser itself is not part of the
repository; it is modelled below, minimally but per the standard's observable
behaviour on the inputs of interest: leading/trailing whitespace is stripped,
an explicit scheme `[A-Za-z][A-Za-z0-9+.\-]*:` is recognised and lowercased,
special (hierarchical) schemes require `//host` and get a `/` path appended
when none is present (the normalization that makes `href` differ textually
from the input), non-special schemes keep their remainder opaque, and
scheme-less inputs are resolved against the page location supplied as
`base`. -/

def isAsciiAlpha (c : Char) : Bool :=
  let n := c.toNat
  (97 ≤ n && n ≤ 122) || (65 ≤ n && n ≤ 90)

def isSchemeChar (c : Char) : Bool :=
  isAsciiAlpha c || isDigitChar c || c = '+' || c = '-' || c = '.'

/-- Modelled from the spec: a parsed URL record; `href` is the serialization
the validator returns. -/
structure UrlRec where
  protocol : String
  rest : String
deriving DecidableEq, Repr

def UrlRec.href (u : UrlRec) : String := u.protocol ++ u.rest

def specialSchemes : List String := ["http:", "https:", "ws:", "wss:", "ftp:", "file:"]

/-- Scheme split: `[A-Za-z][A-Za-z0-9+.\-]*:` at the head; returns the
lowercased protocol (colon included) and the remainder. -/
def splitScheme (l : List Char) : Option (String × List Char) :=
  match l with
  | c :: _ =>
    if isAsciiAlpha c then
      let sch := l.takeWhile isSchemeChar
      match l.drop sch.length with
      | ':' :: rest => some (String.mk (sch.map Char.toLower) ++ ":", rest)
      | _ => none
    else none
  | [] => none

/-- Modelled from the spec: authority-and-path normalization for special
schemes — `//host` mandatory and non-empty, and an empty path serialized as
`/`. -/
def specialRest (r2 : List Char) : Option String :=
  let host := r2.takeWhile (fun c => !(c = '/' || c = '?' || c = '#'))
  if host.length = 0 then none
  else
    let after := r2.drop host.length
    some ("//" ++ String.mk host ++ (if after = [] then "/" else String.mk after))

/-- Host component of a special-scheme rest `//host...`. -/
def restHost (rest : String) : String :=
  String.mk ((rest.data.drop 2).takeWhile (fun c => c ≠ '/' && c ≠ '?' && c ≠ '#'))

/-- Directory part (through the last `/`) of the path of a special-scheme
rest `//host/p/q`. -/
def restDir (rest : String) : String :=
  let path := (rest.data.drop 2).dropWhile (fun c => c ≠ '/')
  let upto := path.reverse.dropWhile (fun c => c ≠ '/')
  if upto = [] then "/" else String.mk upto.reverse

/-- Modelled from the spec: resolution of a scheme-less reference against the
page location. -/
def resolveRel (base : UrlRec) (t : List Char) : Option UrlRec :=
  match t with
  | '/' :: '/' :: r2 =>
    match specialRest r2 with
    | some r => some { protocol := base.protocol, rest := r }
    | none => none
  | '/' :: _ =>
    some { protocol := base.protocol, rest := "//" ++ restHost base.rest ++ String.mk t }
  | _ =>
    some { protocol := base.protocol,
           rest := "//" ++ restHost base.rest ++ restDir base.rest ++ String.mk t }

/-- Modelled from the spec: `new URL(u, base)`, returning `none` where the
platform parser throws. -/
def parseURL (u : String) (base : UrlRec) : Option UrlRec :=
  let t := trimList u.data
  match splitScheme t with
  | some (proto, rest) =>
    if specialSchemes.contains proto then
      match rest with
      | '/' :: '/' :: r2 =>
        match specialRest r2 with
        | some r => some { protocol := proto, rest := r }
        | none => none
      | _ => none
    else
      some { protocol := proto, rest := String.mk rest }
  | none => resolveRel base t

/-- The scheme allow-list of `safeUrl`. -/
def allowedProtocols : List String := ["https:", "data:", "blob:"]

/-- `safeUrl` from both pages: re-parse against the page location, return the
normalized `href` when the scheme is allow-listed, the empty string on any
other scheme or parse failure. -/
def safeUrl (base : UrlRec) (u : String) : String :=
  match parseURL u base with
  | some url => if allowedProtocols.contains url.protocol then url.href else ""
  | none => ""

/-- A typical page location used to instantiate `location.href` in concrete
computations. -/
def pageLoc : UrlRec := { protocol := "https:", rest := "//app.example/" }

/-! ## JSON values

`JSON.parse` / `JSON.stringify` and the loosely-typed payloads the pages walk
over.  Numbers are kept as their raw numeral text (no floating point is
needed anywhere in the modelled logic). -/

inductive Js where
  | null
  | bool (b : Bool)
  | num (raw : String)
  | str (s : String)
  | arr (elems : List Js)
  | obj (fields : List (String × Js))
deriving Repr

def isJsonWs (c : Char) : Bool :=
  c = ' ' || c = '\t' || c = '\n' || c = '\r'

def skipWsJson (l : List Char) : List Char := l.dropWhile isJsonWs

def hexVal (c : Char) : Option Nat :=
  if isDigitChar c then some (c.toNat - 48)
  else if 97 ≤ c.toNat && c.toNat ≤ 102 then some (c.toNat - 87)
  else if 65 ≤ c.toNat && c.toNat ≤ 70 then some (c.toNat - 55)
  else none

/-- JSON string body after the opening quote: contents and remainder. -/
def jstr : Nat → List Char → Option (List Char × List Char)
  | 0, _ => none
  | _+1, [] => none
  | f+1, c :: cs =>
    if c = Char.ofNat 34 then some ([], cs)
    else if c = '\\' then
      match cs with
      | e :: cs2 =>
        let dec : Option (Char × List Char) :=
          if e = Char.ofNat 34 then some (Char.ofNat 34, cs2)
          else if e = '\\' then some ('\\', cs2)
          else if e = '/' then some ('/', cs2)
          else if e = 'n' then some ('\n', cs2)
          else if e = 't' then some ('\t', cs2)
          else if e = 'r' then some ('\r', cs2)
          else if e = 'b' then some (Char.ofNat 8, cs2)
          else if e = 'f' then some (Char.ofNat 12, cs2)
          else if e = 'u' then
            match cs2 with
            | h1 :: h2 :: h3 :: h4 :: cs3 =>
              match hexVal h1, hexVal h2, hexVal h3, hexVal h4 with
              | some a, some b, some c4, some d =>
                some (Char.ofNat (((a * 16 + b) * 16 + c4) * 16 + d), cs3)
              | _, _, _, _ => none
            | _ => none
          else none
        match dec with
        | some (ch, rest) =>
          match jstr f rest with
          | some (s, r) => some (ch :: s, r)
          | none => none
        | none => none
      | [] => none
    else if c.toNat < 32 then none
    else
      match jstr f cs with
      | some (s, r) => some (c :: s, r)
      | none => none

/-- JSON numeral (kept raw; leading-zero strictness of `JSON.parse` is not
enforced). -/
def jnum (l : List Char) : Option (List Char × List Char) :=
  let (sign, l1) := match l with
    | '-' :: r => (['-'], r)
    | _ => ([], l)
  let ip := l1.takeWhile isDigitChar
  if ip = [] then none
  else
    let l2 := l1.drop ip.length
    let (fp, l3) := match l2 with
      | '.' :: r =>
        let d := r.takeWhile isDigitChar
        if d = [] then ([], l2) else ('.' :: d, r.drop d.length)
      | _ => ([], l2)
    let (ep, l4) := match l3 with
      | e :: r =>
        if e = 'e' || e = 'E' then
          let (es, r2) := match r with
            | s :: r2 => if s = '+' || s = '-' then ([s], r2) else ([], r)
            | [] => ([], r)
          let d := r2.takeWhile isDigitChar
          if d = [] then ([], l3) else (e :: (es ++ d), r2.drop d.length)
        else ([], l3)
      | [] => ([], l3)
    some (sign ++ ip ++ fp ++ ep, l4)

mutual

/-- One JSON value (leading whitespace allowed); fuel-bounded recursive
descent. -/
def jval : Nat → List Char → Option (Js × List Char)
  | 0, _ => none
  | f+1, l =>
    let l := skipWsJson l
    match l with
    | [] => none
    | c :: cs =>
      if c = Char.ofNat 34 then
        match jstr (cs.length + 1) cs with
        | some (s, r) => some (.str (String.mk s), r)
        | none => none
      else if c = Char.ofNat 123 then jobjFields f cs
      else if c = '[' then jarrElems f cs
      else
        match litPrefix ("true".data) l with
        | some r => some (.bool true, r)
        | none =>
          match litPrefix ("false".data) l with
          | some r => some (.bool false, r)
          | none =>
            match litPrefix ("null".data) l with
            | some r => some (.null, r)
            | none =>
              if c = '-' || isDigitChar c then
                match jnum l with
                | some (raw, r) => some (.num (String.mk raw), r)
                | none => none
              else none

/-- Array elements after the opening `[`. -/
def jarrElems : Nat → List Char → Option (Js × List Char)
  | 0, _ => none
  | f+1, l =>
    match skipWsJson l with
    | ']' :: r => some (.arr [], r)
    | l2 => jarrLoop f l2 []

def jarrLoop : Nat → List Char → List Js → Option (Js × List Char)
  | 0, _, _ => none
  | f+1, l, acc =>
    match jval f l with
    | none => none
    | some (v, r) =>
      match skipWsJson r with
      | ',' :: r2 => jarrLoop f r2 (acc ++ [v])
      | ']' :: r2 => some (.arr (acc ++ [v]), r2)
      | _ => none

/-- Object fields after the opening brace. -/
def jobjFields : Nat → List Char → Option (Js × List Char)
  | 0, _ => none
  | f+1, l =>
    match skipWsJson l with
    | c :: r =>
      if c = Char.ofNat 125 then some (.obj [], r)
      else jobjLoop f (c :: r) []
    | [] => none

def jobjLoop : Nat → List Char → List (String × Js) → Option (Js × List Char)
  | 0, _, _ => none
  | f+1, l, acc =>
    match skipWsJson l with
    | c :: r =>
      if c = Char.ofNat 34 then
        match jstr (r.length + 1) r with
        | none => none
        | some (k, r2) =>
          match skipWsJson r2 with
          | ':' :: r3 =>
            match jval f r3 with
            | none => none
            | some (v, r4) =>
              match skipWsJson r4 with
              | ',' :: r5 => jobjLoop f r5 (acc ++ [(String.mk k, v)])
              | c2 :: r5 =>
                if c2 = Char.ofNat 125 then some (.obj (acc ++ [(String.mk k, v)]), r5)
                else none
              | [] => none
          | _ => none
      else none
    | [] => none

end

/-- `JSON.parse`, returning `none` where the platform throws (`safeJson`
maps that to `null`, modelled as `none` here since the pages only ever
optional-chain into the result). -/
def jsParse (s : String) : Option Js :=
  match jval (s.data.length + 2) s.data with
  | some (v, rest) => if skipWsJson rest = [] then some v else none
  | none => none

/-- JSON string escaping of `JSON.stringify`. -/
def jsonEscapeChar (c : Char) : List Char :=
  if c = Char.ofNat 34 then ['\\', Char.ofNat 34]
  else if c = '\\' then ['\\', '\\']
  else if c = '\n' then ['\\', 'n']
  else if c = '\t' then ['\\', 't']
  else if c = '\r' then ['\\', 'r']
  else if c = Char.ofNat 8 then ['\\', 'b']
  else if c = Char.ofNat 12 then ['\\', 'f']
  else if c.toNat < 32 then
    let hexDigit := fun (v : Nat) => Char.ofNat (if v < 10 then 48 + v else 87 + v)
    ['\\', 'u', '0', '0', hexDigit (c.toNat / 16), hexDigit (c.toNat % 16)]
  else [c]

def jsonEscape (s : String) : String :=
  String.mk (s.data.foldr (fun c acc => jsonEscapeChar c ++ acc) [])

def jsonQuote (s : String) : String :=
  String.mk [Char.ofNat 34] ++ jsonEscape s ++ String.mk [Char.ofNat 34]

mutual

/-- `JSON.stringify` (no spacing argument). -/
def jsStringify : Js → String
  | .null => "null"
  | .bool true => "true"
  | .bool false => "false"
  | .num raw => raw
  | .str s => jsonQuote s
  | .arr xs => "[" ++ jsStringifyList xs ++ "]"
  | .obj fs => String.mk [Char.ofNat 123] ++ jsStringifyFields fs ++ String.mk [Char.ofNat 125]

def jsStringifyList : List Js → String
  | [] => ""
  | [x] => jsStringify x
  | x :: y :: xs => jsStringify x ++ "," ++ jsStringifyList (y :: xs)

def jsStringifyFields : List (String × Js) → String
  | [] => ""
  | [(k, v)] => jsonQuote k ++ ":" ++ jsStringify v
  | (k, v) :: g :: fs => jsonQuote k ++ ":" ++ jsStringify v ++ "," ++ jsStringifyFields (g :: fs)

end

/-- Property access `v.k` (returns `none` — i.e. `undefined` — off objects or
for a missing key). -/
def Js.getF : Js → String → Option Js
  | .obj fs, k => fs.lookup k
  | _, _ => none

/-- Index access `v[i]` on arrays. -/
def Js.atIdx : Js → Nat → Option Js
  | .arr xs, i => xs.get? i
  | _, _ => none

/-- Optional chaining `j?.k` on an optional value. -/
def jget (j : Option Js) (k : String) : Option Js :=
  j.bind (fun v => v.getF k)

def jat (j : Option Js) (i : Nat) : Option Js :=
  j.bind (fun v => v.atIdx i)

/-- JS truthiness of a JSON value (`undefined` is handled at `Option`
level). -/
def truthy : Js → Bool
  | .null => false
  | .bool b => b
  | .str s => s ≠ ""
  | .num raw => !(raw.data.filter isDigitChar).all (fun c => c = '0')
  | .arr _ => true
  | .obj _ => true

def truthyOpt (j : Option Js) : Bool :=
  match j with
  | some v => truthy v
  | none => false

mutual

/-- JS string coercion `String(v)` of a JSON value. -/
def jsCoerce : Js → String
  | .null => "null"
  | .bool true => "true"
  | .bool false => "false"
  | .num raw => raw
  | .str s => s
  | .arr xs => jsCoerceElems xs
  | .obj _ => "[object Object]"

/-- `Array.prototype.join(",")`: `null` elements serialize as the empty
string. -/
def jsCoerceElems : List Js → String
  | [] => ""
  | [x] => jsCoerceElem x
  | x :: y :: xs => jsCoerceElem x ++ "," ++ jsCoerceElems (y :: xs)

def jsCoerceElem : Js → String
  | .null => ""
  | v => jsCoerce v

end

/-! ## The `generate` flow of `src/app/page.tsx`

Extraction over the first response, the single retry with the augmented
prompt, and the terminal no-image message.  Responses are taken as parsed
payloads (`Option Js`, `none` standing for `safeJson` failure). -/

/-- `typeof v === "string"` test on an optionally-present field. -/
def isStrValue (j : Option Js) (t : String) : Bool :=
  match j with
  | some (.str s) => s = t
  | _ => false

/-- One block of the first-response `msg.content` array loop of `generate`:
an `image_url` block with a truthy url contributes its validated url, a
`text` block with a string payload contributes extracted urls (validated)
then data URIs, and a bare string element contributes the same. -/
def blockUrlsGen1 (base : UrlRec) (b : Js) : List String :=
  (if isStrValue (b.getF "type") "image_url" && truthyOpt ((b.getF "image_url").bind (fun x => x.getF "url")) then
    match (b.getF "image_url").bind (fun x => x.getF "url") with
    | some u => [safeUrl base (jsCoerce u)]
    | none => []
  else []) ++
  (if isStrValue (b.getF "type") "text" then
    match b.getF "text" with
    | some (.str s) => (extractImageUrlsFromText s).map (safeUrl base) ++ extractDataUris s
    | _ => []
  else []) ++
  (match b with
   | .str s => (extractImageUrlsFromText s).map (safeUrl base) ++ extractDataUris s
   | _ => [])

/-- The `images[]` fallback common to both pages:
`json.images.map(im => im?.image_url?.url || "").filter(Boolean).map(safeUrl)`. -/
def imagesFallback (base : UrlRec) (ims : List Js) : List String :=
  ims.filterMap (fun im =>
    match (im.getF "image_url").bind (fun x => x.getF "url") with
    | some u => if truthy u then some (safeUrl base (jsCoerce u)) else none
    | none => none)

/-- `String(msg?.content || "")`. -/
def rawContentString (c : Option Js) : String :=
  match c with
  | some v => if truthy v then jsCoerce v else ""
  | none => ""

/-- Extraction over the first response of `generate` (lines 180-212 of
`src/app/page.tsx`): content-array loop, then `images[]`, then the raw-string
fallback, then de-duplication and `filter(Boolean)`. -/
def genExtract1 (base : UrlRec) (json : Option Js) : List String :=
  let msg := jget (jat (jget json "choices") 0) "message"
  let urls :=
    match jget msg "content" with
    | some (.arr bs) => bs.foldl (fun acc b => acc ++ blockUrlsGen1 base b) []
    | _ => []
  let urls :=
    if urls = [] then
      match jget json "images" with
      | some (.arr ims) => imagesFallback base ims
      | _ => urls
    else urls
  let urls :=
    if urls = [] then
      let raw := rawContentString (jget msg "content")
      let d := extractDataUris raw
      if d = [] then (extractImageUrlsFromText raw).map (safeUrl base) else d
    else urls
  (dedupKeepFirst urls).filter (fun u => u ≠ "")

/-- A thrown JS `TypeError`, carrying the offending value (`none` for
`undefined`): the retry loop's `text` branch lacks the `typeof` guard of the
first loop, so `extractDataUris(b.text)` calls `.match` on a non-string and
throws; `generate`'s catch surfaces the engine-supplied message
(`e?.message || "失败"`), whose exact text is a platform primitive. -/
inductive JsError where
  | typeError (culprit : Option Js)
deriving Repr

/-- One block of the retry content-array loop of `generate` (lines 244-252):
note the reversed push order (data URIs before urls) and the unguarded
`b.text` access, which throws a `TypeError` on any non-string `text`
payload (including an absent one). -/
def blockUrlsGen2 (base : UrlRec) (b : Js) : Except JsError (List String) :=
  let first :=
    (if isStrValue (b.getF "type") "image_url" && truthyOpt ((b.getF "image_url").bind (fun x => x.getF "url")) then
      match (b.getF "image_url").bind (fun x => x.getF "url") with
      | some u => [safeUrl base (jsCoerce u)]
      | none => []
    else [])
  if isStrValue (b.getF "type") "text" then
    match b.getF "text" with
    | some (.str s) =>
      .ok (first ++ (extractDataUris s ++ (extractImageUrlsFromText s).map (safeUrl base)))
    | t => .error (.typeError t)
  else .ok first

/-- Extraction over the retried response of `generate` (lines 241-258); the
loop dies at the first block whose unguarded `b.text` access throws. -/
def genExtract2 (base : UrlRec) (json : Option Js) : Except JsError (List String) :=
  let m2 := jget (jat (jget json "choices") 0) "message"
  match jget m2 "content" with
  | some (.arr bs) =>
    (bs.foldlM (fun acc b => (blockUrlsGen2 base b).map (fun us => acc ++ us)) []).map
      (fun urls => (dedupKeepFirst urls).filter (fun u => u ≠ ""))
  | _ =>
    let raw := rawContentString (jget m2 "content")
    .ok ((dedupKeepFirst (extractDataUris raw ++
      (extractImageUrlsFromText raw).map (safeUrl base))).filter (fun u => u ≠ ""))

/-- `t.endsWith(suffix)` of JS. -/
def jsEndsWith (suf t : String) : Bool :=
  (litPrefix suf.data.reverse t.data.reverse).isSome

/-- `ensureImageReturn` of `src/app/page.tsx`. -/
def ensureImageReturnP (p : String) : String :=
  let t := jsTrim p
  if jsEndsWith "务必返回图片" t then t
  else
    t ++ (if (match t.data.getLast? with
              | some c => c = '。' || c = '.' || c = '!' || c = '?' || c = '？'
              | none => false) then "" else "。") ++ "务必返回图片"

/-- The stricter instruction appended for the retry request. -/
def retrySuffix : String := " 只返回图片，不要文字；如无法生成，请返回原因。"

/-- The terminal message when the retry is also empty: first 200 chars of a
non-empty string `m2.content`, else the generic no-image message. -/
def terminalReason (json2 : Option Js) : String :=
  match jget (jget (jat (jget json2 "choices") 0) "message") "content" with
  | some (.str s) => if s ≠ "" then String.mk (s.data.take 200) else "未返回图片"
  | _ => "未返回图片"

inductive GenOutcome where
  | success (urls : List String)
  | noImage (reason : String)
  | error (e : JsError)
deriving Repr

structure GenRun where
  requests : Nat
  retryPrompt : Option String
  outcome : GenOutcome
deriving Repr

/-- The `generate` control flow of `src/app/page.tsx` over the (at most two)
responses: extract from the first; if empty, send exactly one retry whose
text is the ensured prompt plus `retrySuffix`, extract from its response,
and if still empty surface `terminalReason`; a `TypeError` thrown inside the
retry extraction escapes to the catch (outcome `.error`), with no further
request in any case. -/
def generateModel (base : UrlRec) (p : String) (r1 r2 : Option Js) : GenRun :=
  let urls1 := genExtract1 base r1
  if urls1 = [] then
    match genExtract2 base r2 with
    | .error e =>
      { requests := 2, retryPrompt := some (ensureImageReturnP p ++ retrySuffix),
        outcome := .error e }
    | .ok urls2 =>
      if urls2 = [] then
        { requests := 2, retryPrompt := some (ensureImageReturnP p ++ retrySuffix),
          outcome := .noImage (terminalReason r2) }
      else
        { requests := 2, retryPrompt := some (ensureImageReturnP p ++ retrySuffix),
          outcome := .success urls2 }
  else
    { requests := 1, retryPrompt := none, outcome := .success urls1 }

/-! ## The `doGenerate` flow of the image-batch page (part_000, second page)

Extraction and storage: the raw response text is scanned for urls FIRST and,
when that yields anything, those urls are stored directly (no `safeUrl`);
only the later, JSON-driven tiers validate. -/

/-- One block of the `msg.content` array loop of `doGenerate`. -/
def blockUrlsDoGen (base : UrlRec) (b : Js) : List String :=
  (if isStrValue (b.getF "type") "image_url" && truthyOpt ((b.getF "image_url").bind (fun x => x.getF "url")) then
    match (b.getF "image_url").bind (fun x => x.getF "url") with
    | some u => [safeUrl base (jsCoerce u)]
    | none => []
  else []) ++
  (if isStrValue (b.getF "type") "text" then
    match b.getF "text" with
    | some (.str s) => (extractImageUrlsFromText s).map (safeUrl base) ++ extractDataUris s
    | _ => []
  else [])

def jsStringifyOpt (j : Option Js) : String :=
  match j with
  | some v => jsStringify v
  | none => "null"

/-- The `msg.content` tier of `doGenerate` (lines 781-795): the content-array
loop, or plain-url extraction (validated) of a string content. -/
def doGenStage0 (base : UrlRec) (json : Option Js) : List String :=
  match jget (jget (jat (jget json "choices") 0) "message") "content" with
  | some (.arr bs) => bs.foldl (fun acc b => acc ++ blockUrlsDoGen base b) []
  | some (.str s) => (extractImageUrlsFromText s).map (safeUrl base)
  | _ => []

/-- Lines 797-799: a non-empty string-valued `json.choices`. -/
def doGenStage1 (base : UrlRec) (json : Option Js) (urls : List String) : List String :=
  if urls = [] then
    match jget json "choices" with
    | some (.str s) =>
      if s ≠ "" then urls ++ (extractImageUrlsFromText s).map (safeUrl base) else urls
    | _ => urls
  else urls

/-- Lines 801-807: string elements of a `json.choices` array. -/
def doGenStage2 (base : UrlRec) (json : Option Js) (urls : List String) : List String :=
  if urls = [] then
    match jget json "choices" with
    | some (.arr cs) =>
      urls ++ cs.foldl (fun acc c => acc ++
        match c with
        | .str s => (extractImageUrlsFromText s).map (safeUrl base)
        | _ => []) []
    | _ => urls
  else urls

/-- Lines 809-811: whole-payload stringify fallback. -/
def doGenStage3 (base : UrlRec) (json : Option Js) (urls : List String) : List String :=
  if urls = [] then urls ++ (extractImageUrlsFromText (jsStringifyOpt json)).map (safeUrl base)
  else urls

/-- Lines 813-818: the `images[]` container. -/
def doGenStage4 (base : UrlRec) (json : Option Js) (urls : List String) : List String :=
  if urls = [] then
    match jget json "images" with
    | some (.arr ims) => imagesFallback base ims
    | _ => urls
  else urls

/-- The sequential `urls` re-assignments of `doGenerate`, tier by tier. -/
def doGenJsonUrls (base : UrlRec) (json : Option Js) : List String :=
  doGenStage4 base json (doGenStage3 base json (doGenStage2 base json
    (doGenStage1 base json (doGenStage0 base json))))

/-- `doGenerate` (lines 743-829 of the image-batch page) as a function from
the response text, HTTP-ok flag and status to the list of urls passed to
`addRun` (or the thrown error message).  The parsed payload is `jsParse txt`
exactly as `safeJson` computes it. -/
def doGenUrls (base : UrlRec) (status : Nat) (txt : String) (ok : Bool) : Except String (List String) :=
  let directUrls := extractImageUrlsFromText txt
  if directUrls ≠ [] then .ok directUrls
  else
    let json := jsParse txt
    if !ok then
      .error (match jget (jget json "error") "message" with
              | some (.str s) => if s ≠ "" then String.mk (s.data.take 200)
                                 else String.mk (("HTTP " ++ toString status).data.take 200)
              | _ => String.mk (("HTTP " ++ toString status).data.take 200))
    else
      let finalUrls := (dedupKeepFirst (doGenJsonUrls base json)).filter (fun u => u ≠ "")
      if finalUrls = [] then .error "未返回图片" else .ok finalUrls

/-! ## The stream ingestor (`generateStreamResponse` of the chat page) -/

structure SState where
  raw : String
  content : String
  responses : List Js
  doneSeen : Bool

def initSState : SState :=
  { raw := "", content := "", responses := [], doneSeen := false }

/-- `line.startsWith(prefix)` of JS. -/
def jsStartsWith (pre s : String) : Bool :=
  (litPrefix pre.data s.data).isSome

/-- `chunk.split("\n")` of JS. -/
def splitOnNl : List Char → List (List Char)
  | [] => [[]]
  | c :: cs =>
    match splitOnNl cs with
    | [] => [[c]]
    | h :: t => if c = '\n' then [] :: h :: t else (c :: h) :: t

/-- The per-line loop of `generateStreamResponse`: only `data: ` lines are
considered; the `[DONE]` sentinel stops processing of the remaining lines of
the current chunk (the source `break`); a payload that fails structured
decode is skipped and processing continues; otherwise the payload is
recorded, a non-empty string delta is appended to the raw accumulator and the
content filter re-run over the full accumulator, and a truthy
`finish_reason` stops the current chunk's line loop. -/
def processLines (st : SState) : List String → SState
  | [] => st
  | line :: ls =>
    if jsStartsWith "data: " line then
      let d := jsTrim (String.mk (line.data.drop 6))
      if d = "[DONE]" then { st with doneSeen := true }
      else
        match jsParse d with
        | none => processLines st ls
        | some j =>
          let st1 := { st with responses := st.responses ++ [j] }
          let choice0 := jat (jget (some j) "choices") 0
          let st2 :=
            match jget (jget choice0 "delta") "content" with
            | some (.str s) =>
              if s ≠ "" then
                { st1 with raw := st1.raw ++ s, content := filterAIResponse (st1.raw ++ s) }
              else st1
            | _ => st1
          if truthyOpt (jget choice0 "finish_reason") then st2
          else processLines st2 ls
    else processLines st ls

def processChunk (st : SState) (chunk : String) : SState :=
  processLines st ((splitOnNl chunk.data).map String.mk)

def runStream (chunks : List String) : SState :=
  chunks.foldl processChunk initSState

/-! ## The bounded history store

`localStorage` is modelled as an association list of key/value strings;
`getStorageSize` sums key and value lengths; `setItem` is subject to the
browser quota (a parameter — the code itself fixes no quota) and throws,
modelled as `none`, when the write would exceed it. -/

abbrev Store := List (String × String)

/-- `getStorageSize()`: total of `localStorage[key].length + key.length`. -/
def storageSize (st : Store) : Nat :=
  (st.map (fun kv => kv.1.length + kv.2.length)).sum

/-- `localStorage.setItem` state update (replace or insert). -/
def storeSet (st : Store) (k v : String) : Store :=
  match st with
  | [] => [(k, v)]
  | (k0, v0) :: rest => if k0 = k then (k, v) :: rest else (k0, v0) :: storeSet rest k v

/-- `localStorage.setItem` under a byte quota: `none` models the thrown
`QuotaExceededError`. -/
def trySetItem (quota : Nat) (st : Store) (k v : String) : Option Store :=
  let st2 := storeSet st k v
  if storageSize st2 ≤ quota then some st2 else none

/-- `xs.slice(-n)`. -/
def lastN (n : Nat) (l : List α) : List α :=
  l.drop (l.length - n)

/-- The 4 MB threshold of `addMessage`. -/
def storageBudget : Nat := 4 * 1024 * 1024

def chatKey : String := "chat-messages"

structure ChatMessage where
  id : String
  role : String
  content : String
  rawContent : Option String
  timestamp : String

/-- `JSON.stringify` of a message object `{ id, role, content, rawContent,
timestamp }`; an absent (`undefined`) `rawContent` is omitted entirely, as
`JSON.stringify` does. -/
def serializeMessage (m : ChatMessage) : String :=
  String.mk [Char.ofNat 123] ++
  jsonQuote "id" ++ ":" ++ jsonQuote m.id ++ "," ++
  jsonQuote "role" ++ ":" ++ jsonQuote m.role ++ "," ++
  jsonQuote "content" ++ ":" ++ jsonQuote m.content ++
  (match m.rawContent with
   | some r => "," ++ jsonQuote "rawContent" ++ ":" ++ jsonQuote r
   | none => "") ++
  "," ++ jsonQuote "timestamp" ++ ":" ++ jsonQuote m.timestamp ++
  String.mk [Char.ofNat 125]

def joinComma : List String → String
  | [] => ""
  | [x] => x
  | x :: y :: t => x ++ "," ++ joinComma (y :: t)

def serializeMessages (l : List ChatMessage) : String :=
  "[" ++ joinComma (l.map serializeMessage) ++ "]"

/-- `addMessage` of the chat page (lines 175-221): append the new message;
if the stored size BEFORE the write already exceeds the 4 MB budget, trim to
the most recent 30 and write those; otherwise write everything; on a thrown
write, retry with the most recent 20; a second failure leaves storage
unchanged.  Returns the updated storage and the messages kept in state. -/
def addMessage (quota : Nat) (st : Store) (prev : List ChatMessage) (m : ChatMessage) :
    Store × List ChatMessage :=
  let updated := prev ++ [m]
  let cur := storageSize st
  if cur > storageBudget then
    match trySetItem quota st chatKey (serializeMessages (lastN 30 updated)) with
    | some st2 => (st2, lastN 30 updated)
    | none =>
      match trySetItem quota st chatKey (serializeMessages (lastN 20 updated)) with
      | some st2 => (st2, lastN 20 updated)
      | none => (st, updated)
  else
    match trySetItem quota st chatKey (serializeMessages updated) with
    | some st2 => (st2, updated)
    | none =>
      match trySetItem quota st chatKey (serializeMessages (lastN 20 updated)) with
      | some st2 => (st2, lastN 20 updated)
      | none => (st, updated)

structure RunEntry where
  id : String
  ts : String
  durSec : String
  url : String

/-- `JSON.stringify` of a run `{ id, ts, durSec, url }`; `durSec` is a JSON
number, kept as its raw numeral text. -/
def serializeRun (r : RunEntry) : String :=
  String.mk [Char.ofNat 123] ++
  jsonQuote "id" ++ ":" ++ jsonQuote r.id ++ "," ++
  jsonQuote "ts" ++ ":" ++ jsonQuote r.ts ++ "," ++
  jsonQuote "durSec" ++ ":" ++ r.durSec ++ "," ++
  jsonQuote "url" ++ ":" ++ jsonQuote r.url ++
  String.mk [Char.ofNat 125]

def serializeRuns (l : List RunEntry) : String :=
  "[" ++ joinComma (l.map serializeRun) ++ "]"

/-- `addRun` of the image-batch page (lines 831-841): unconditionally prepend
the new run and persist the whole list — no size check, no eviction, no
exception handler (`none` models the uncaught quota error). -/
def addRun (quota : Nat) (st : Store) (runs : List RunEntry) (r : RunEntry) :
    Option (Store × List RunEntry) :=
  match trySetItem quota st "runs" (serializeRuns (r :: runs)) with
  | some st2 => some (st2, r :: runs)
  | none => none

/-! ## The download redirector (`src/app/api/download/route.ts`) -/

structure DownloadResponse where
  status : Nat
  redirectTo : Option String
  contentDisposition : Option String
  cacheControl : Option String
deriving Repr, DecidableEq

/-- The reserved-character class `[\/\\:*?"<>|]` removed from filenames. -/
def reservedChar (c : Char) : Bool :=
  c = '/' || c = '\\' || c = ':' || c = '*' || c = '?' || c = Char.ofNat 34 ||
  c = '<' || c = '>' || c = '|'

def removeReserved (s : String) : String :=
  String.mk (s.data.filter (fun c => !reservedChar c))

/-- The `sanitizeName` helper defined in the route file: reserved characters
removed AND trailing dots stripped.  (Defined in the source but never called
by `GET`.) -/
def sanitizeName (s : String) : String :=
  String.mk (((removeReserved (if s = "" then "image" else s)).data.reverse.dropWhile
    (fun c => c = '.')).reverse)

/-- `GET` of the download route: `name` is the supplied filename (defaulted
to `image`) with only the reserved characters removed — the trailing-dot
strip of `sanitizeName` is not applied; missing or empty `url` yields 400;
otherwise a redirect carrying `Content-Disposition: attachment;
filename="<name>.png"`. -/
def downloadGET (url : Option String) (filename : Option String) : DownloadResponse :=
  let name := removeReserved (match filename with
    | some f => if f = "" then "image" else f
    | none => "image")
  match url with
  | none => { status := 400, redirectTo := none, contentDisposition := none, cacheControl := none }
  | some u =>
    if u = "" then
      { status := 400, redirectTo := none, contentDisposition := none, cacheControl := none }
    else
      { status := 307, redirectTo := some u,
        contentDisposition := some ("attachment; filename=" ++ String.mk [Char.ofNat 34] ++
          name ++ ".png" ++ String.mk [Char.ofNat 34]),
        cacheControl := some "no-store" }

/-! ## Concrete instances used by scenario theorems and counterexamples -/

/-- The three streaming frames of the `Hel` / `lo` / `[DONE]` scenario. -/
def frameHel : String :=
  "data: \x7b\"choices\":[\x7b\"delta\":\x7b\"content\":\"Hel\"\x7d\x7d]\x7d\n\n"

def frameLo : String :=
  "data: \x7b\"choices\":[\x7b\"delta\":\x7b\"content\":\"lo\"\x7d\x7d]\x7d\n\n"

def frameDone : String := "data: [DONE]\n\n"

/-- `n` copies of `a` (used to build multi-megabyte stored values whose
sizes are reasoned about by length lemmas, never by evaluation). -/
def bigA (n : Nat) : String :=
  String.mk (List.replicate n 'a')

/-- Sized so that the serialized one-message history plus the
`chat-messages` key occupies exactly the 4 MB budget. -/
def c1N0 : Nat := 4194236

def c1M0 : ChatMessage :=
  { id := "i", role := "user", content := bigA c1N0, rawContent := none, timestamp := "t" }

def c1M1 : ChatMessage :=
  { id := "j", role := "user", content := bigA 1000000, rawContent := none, timestamp := "t" }

def c1Store : Store := [(chatKey, serializeMessages [c1M0])]

/-- A browser-typical quota (10 MB), strictly above the 4 MB budget. -/
def c1Quota : Nat := 10485760

/-- A response body in which an earlier greedy data-URI match swallows the
`data` prefix of a later well-formed literal. -/
def c6Body : String := "data:image/png;base64,XXdata:image/png;base64,AA"

/-- A store already past the 4 MB budget (exercises the proactive-eviction
branch of `addMessage`). -/
def c1WStore : Store := [(chatKey, bigA 4194305)]

def c1WMsg : ChatMessage :=
  { id := "i", role := "user", content := "hi", rawContent := none, timestamp := "t" }

def c1WRun : RunEntry :=
  { id := "r", ts := "t", durSec := "1.5", url := "https://a.io/x.png" }

/-! ## Helper lemmas -/

theorem data_mk (l : List Char) : (String.mk l).data = l := rfl

theorem mk_data (s : String) : String.mk s.data = s := rfl

theorem data_append (a b : String) : (a ++ b).data = a.data ++ b.data := rfl

/-- A global-replace pass over a string with no match anywhere is the
identity (for every fuel value). -/
theorem scanRep_no_match {m : List Char → Option (Nat × List Char)} :
    ∀ (l : List Char) (f : Nat), anyMatch m l = false → scanRep m f l = l := by
  intro l
  induction l with
  | nil => intro f _; cases f <;> rfl
  | cons c cs ih =>
    intro f h
    cases f with
    | zero => rfl
    | succ f =>
      rw [anyMatch] at h
      rcases Bool.or_eq_false_iff.mp h with ⟨h1, h2⟩
      have hm : m (c :: cs) = none := Option.not_isSome_iff_eq_none.mp (by simp [h1])
      rw [scanRep, hm]
      rw [ih f h2]

theorem dropWhile_head_false {p : Char → Bool} :
    ∀ (l : List Char) (c : Char), (l.dropWhile p).head? = some c → p c = false := by
  intro l
  induction l with
  | nil => intro c h; simp [List.dropWhile] at h
  | cons a as ih =>
    intro c h
    rw [List.dropWhile] at h
    by_cases hp : p a
    · simp only [hp, if_true] at h; exact ih c h
    · simp only [hp, if_false] at h
      have hac : a = c := by
        have : some a = some c := by simpa using h
        exact Option.some.inj this
      rw [← hac]
      exact Bool.of_not_eq_true hp

theorem dropWhile_eq_self_of_head {p : Char → Bool} (l : List Char)
    (h : ∀ c, l.head? = some c → p c = false) : l.dropWhile p = l := by
  cases l with
  | nil => rfl
  | cons a as =>
    have := h a rfl
    simp [List.dropWhile, this]

theorem getLast?_dropWhile {p : Char → Bool} :
    ∀ (l : List Char), l.dropWhile p ≠ [] → (l.dropWhile p).getLast? = l.getLast? := by
  intro l
  induction l with
  | nil => intro h; simp [List.dropWhile] at h
  | cons a as ih =>
    intro h
    rw [List.dropWhile] at h ⊢
    by_cases hp : p a
    · simp only [hp, if_true] at h ⊢
      have has : as ≠ [] := by
        intro he; rw [he] at h; simp [List.dropWhile] at h
      rw [ih h]
      cases as with
      | nil => exact absurd rfl has
      | cons b bs => rw [List.getLast?_cons_cons]
    · simp only [hp, if_false]

/-- Trimming is idempotent. -/
theorem trimList_idem (l : List Char) : trimList (trimList l) = trimList l := by
  unfold trimList
  set D := l.dropWhile isWsChar with hD
  set E := D.reverse.dropWhile isWsChar with hE
  have hE_head : ∀ c, E.head? = some c → isWsChar c = false := fun c h =>
    dropWhile_head_false D.reverse c (hE ▸ h)
  have h1 : E.reverse.dropWhile isWsChar = E.reverse := by
    apply dropWhile_eq_self_of_head
    intro c hc
    rcases List.eq_nil_or_concat E.reverse with he | ⟨ys, y, hy⟩
    · rw [he] at hc; simp at hc
    · -- head of E.reverse is the last of E, which is the last of D.reverse,
      -- i.e. the head of D, which fails the predicate
      have hEne : E ≠ [] := by
        intro h0; rw [h0] at hc; simp at hc
      have hDr : D.reverse ≠ [] := by
        intro h0
        apply hEne
        rw [hE, h0, List.dropWhile]
      have hlast : E.getLast? = D.reverse.getLast? := by
        rw [hE]; exact getLast?_dropWhile D.reverse (hE ▸ hEne)
      have hrev : E.reverse.head? = E.getLast? := by
        rw [List.head?_reverse]
      have hDlast : D.reverse.getLast? = D.head? := by
        rw [List.getLast?_reverse]
      have hc2 : D.head? = some c := by
        rw [← hDlast, ← hlast, ← hrev, hc]
      exact dropWhile_head_false l c (hD ▸ hc2)
  rw [h1, List.reverse_reverse]
  have h2 : E.dropWhile isWsChar = E := by
    apply dropWhile_eq_self_of_head
    exact hE_head
  rw [h2]

theorem litPrefix_self_append : ∀ (p l : List Char), litPrefix p (p ++ l) = some l := by
  intro p
  induction p with
  | nil => intro l; rfl
  | cons c cs ih => intro l; simp [litPrefix, ih]

/-- The filtered output is already trimmed. -/
theorem filterAIResponse_data_trimmed (x : String) :
    trimList (filterAIResponse x).data = (filterAIResponse x).data :=
  trimList_idem _

theorem nlRun_cons_ws_nl (cs : List Char) : nlRun ('\n' :: cs) = 1 + nlRun cs := by
  unfold nlRun
  rw [List.takeWhile_cons]
  simp [isWsChar]
  omega

theorem nlRun_cons_ws_sp (c : Char) (hws : isWsChar c = true) (hnl : c ≠ '\n')
    (cs : List Char) : nlRun (c :: cs) = nlRun cs := by
  unfold nlRun
  rw [List.takeWhile_cons, if_pos hws]
  rw [List.count_cons]
  simp [hnl]

theorem nlRun_cons_not_ws (c : Char) (hws : isWsChar c = false) (cs : List Char) :
    nlRun (c :: cs) = 0 := by
  unfold nlRun
  rw [List.takeWhile_cons]
  simp [hws]

theorem matchTriple_not_nl {c : Char} (h : c ≠ '\n') (cs : List Char) :
    matchTriple (c :: cs) = none := by
  unfold matchTriple
  split
  · rename_i heq
    exact absurd (List.cons.inj heq).1 h
  · rfl

theorem matchTriple_nl_small {cs : List Char} (h : nlRun ('\n' :: cs) < 3) :
    matchTriple ('\n' :: cs) = none := by
  unfold matchTriple
  have : ¬ (3 ≤ (('\n' :: cs).takeWhile isWsChar).count '\n') := by
    unfold nlRun at h
    omega
  simp only [if_neg this]

theorem matchTriple_none_of_small : ∀ {l : List Char}, nlRun l < 3 → matchTriple l = none := by
  intro l h
  cases l with
  | nil => rfl
  | cons c cs =>
    by_cases hc : c = '\n'
    · subst hc; exact matchTriple_nl_small h
    · exact matchTriple_not_nl hc cs

theorem takeWhile_append_all {p : Char → Bool} :
    ∀ (a b : List Char), (∀ c ∈ a, p c = true) →
      (a ++ b).takeWhile p = a ++ b.takeWhile p := by
  intro a
  induction a with
  | nil => intro b _; rfl
  | cons c cs ih =>
    intro b h
    rw [List.cons_append, List.takeWhile_cons, if_pos (h c (List.mem_cons_self _ _)),
      List.cons_append, ih b (fun x hx => h x (List.mem_cons_of_mem _ hx))]

/-- Inversion of the triple-newline matcher: the match covers the leading
whitespace run through its last newline, so the remainder opens with a
newline-free whitespace stretch. -/
theorem matchTriple_inv {l : List Char} {k : Nat} {rep : List Char}
    (h : matchTriple l = some (k, rep)) :
    rep = ['\n', '\n'] ∧ 1 ≤ k ∧ 3 ≤ nlRun l ∧ nlRun (l.drop k) = 0 := by
  cases l with
  | nil => exact absurd h (by simp [matchTriple])
  | cons c cs =>
    by_cases hc : c = '\n'
    · subst hc
      have h2 : (if 3 ≤ (('\n' :: cs).takeWhile isWsChar).count '\n' then
          some ((('\n' :: cs).takeWhile isWsChar).length -
            ((('\n' :: cs).takeWhile isWsChar).reverse.takeWhile (fun c => c ≠ '\n')).length,
            (['\n', '\n'] : List Char))
        else none) = some (k, rep) := h
      split at h2
      next hcnt =>
        have hinj := Option.some.inj h2
        have hk : (('\n' :: cs).takeWhile isWsChar).length -
            ((('\n' :: cs).takeWhile isWsChar).reverse.takeWhile (fun c => c ≠ '\n')).length
            = k := congrArg Prod.fst hinj
        have hrep : rep = ['\n', '\n'] := (congrArg Prod.snd hinj).symm
        set W := ('\n' :: cs).takeWhile isWsChar with hWdef
        set T := W.reverse.takeWhile (fun c => c ≠ '\n') with hTdef
        set D := W.reverse.dropWhile (fun c => c ≠ '\n') with hDdef
        set R := ('\n' :: cs).dropWhile isWsChar with hRdef
        have hWD : T ++ D = W.reverse := List.takeWhile_append_dropWhile _ _
        have hW : W = D.reverse ++ T.reverse := by
          have h1 : W.reverse.reverse = (T ++ D).reverse := by rw [hWD]
          rw [List.reverse_reverse, List.reverse_append] at h1
          exact h1
        have hlR : W ++ R = '\n' :: cs := List.takeWhile_append_dropWhile _ _
        have hDne : D ≠ [] := by
          intro hD
          have hall := List.dropWhile_eq_nil_iff.mp hD
          have hzero : W.reverse.count '\n' = 0 := by
            apply List.count_eq_zero.mpr
            intro hmem
            have := hall '\n' hmem
            simp at this
          rw [List.count_reverse] at hzero
          omega
        have hlen : W.length = T.length + D.length := by
          have := congrArg List.length hWD
          rw [List.length_append, List.length_reverse] at this
          omega
        have hkD : k = D.length := by omega
        have hdrop : ('\n' :: cs).drop k = T.reverse ++ R := by
          have hsplit : '\n' :: cs = D.reverse ++ (T.reverse ++ R) := by
            rw [← hlR, hW, List.append_assoc]
          rw [hsplit, hkD, show D.length = D.reverse.length from (List.length_reverse _).symm,
            List.drop_left]
        have hTmem : ∀ x ∈ T.reverse, isWsChar x = true ∧ x ≠ '\n' := by
          intro x hx
          rw [List.mem_reverse] at hx
          constructor
          · have hxW : x ∈ W.reverse := (List.takeWhile_prefix _).subset hx
            rw [List.mem_reverse] at hxW
            exact List.mem_takeWhile_imp (hWdef ▸ hxW)
          · have := List.mem_takeWhile_imp (hTdef ▸ hx)
            simpa using this
        refine ⟨hrep, ?_, hcnt, ?_⟩
        · have : 0 < D.length := List.length_pos.mpr hDne
          omega
        · rw [hdrop]
          unfold nlRun
          rw [takeWhile_append_all _ _ (fun x hx => (hTmem x hx).1)]
          have hRtw : R.takeWhile isWsChar = [] := by
            cases hR : R with
            | nil => rfl
            | cons r rs =>
              have hhead : (('\n' :: cs).dropWhile isWsChar).head? = some r := by
                rw [← hRdef, hR]; rfl
              have := dropWhile_head_false _ r hhead
              rw [List.takeWhile_cons, this]
              rfl
          rw [hRtw, List.count_append]
          have hT0 : T.reverse.count '\n' = 0 := by
            apply List.count_eq_zero.mpr
            intro hmem
            exact (hTmem '\n' hmem).2 rfl
          rw [hT0]
          rfl
      next => exact absurd h2 (by simp)
    · exact absurd (matchTriple_not_nl hc cs ▸ h) (by simp)

theorem matchTriple_nl_fires {cs : List Char} (h3 : 3 ≤ nlRun ('\n' :: cs)) :
    (matchTriple ('\n' :: cs)).isSome = true := by
  have he : matchTriple ('\n' :: cs) = (if 3 ≤ (('\n' :: cs).takeWhile isWsChar).count '\n' then
      some ((('\n' :: cs).takeWhile isWsChar).length -
        ((('\n' :: cs).takeWhile isWsChar).reverse.takeWhile (fun c => c ≠ '\n')).length,
        (['\n', '\n'] : List Char))
    else none) := rfl
  have h3' : 3 ≤ List.count '\n' (List.takeWhile isWsChar ('\n' :: cs)) := h3
  rw [he, if_pos h3']
  rfl

theorem nlRun_small_of_none {cs : List Char} (h : matchTriple ('\n' :: cs) = none) :
    nlRun ('\n' :: cs) < 3 := by
  by_contra h3
  have := matchTriple_nl_fires (Nat.le_of_not_lt h3)
  rw [h] at this
  simp at this

/-- The collapse pass leaves no three-newline whitespace run anywhere in its
output, and the newline count of the output's leading whitespace run is the
input's capped at two. -/
theorem scanRep_triple_inv :
    ∀ (f : Nat) (l : List Char), l.length ≤ f →
      anyMatch matchTriple (scanRep matchTriple f l) = false ∧
      nlRun (scanRep matchTriple f l) = min (nlRun l) 2 := by
  intro f
  induction f with
  | zero =>
    intro l hlen
    have : l = [] := List.eq_nil_of_length_eq_zero (Nat.le_zero.mp hlen)
    subst this
    exact ⟨rfl, rfl⟩
  | succ f ih =>
    intro l hlen
    cases l with
    | nil => exact ⟨rfl, rfl⟩
    | cons c cs =>
      cases hm : matchTriple (c :: cs) with
      | none =>
        have hout : scanRep matchTriple (f+1) (c :: cs) = c :: scanRep matchTriple f cs := by
          rw [scanRep, hm]
        obtain ⟨iha, ihb⟩ := ih cs (Nat.le_of_succ_le_succ hlen)
        by_cases hcn : c = '\n'
        · subst hcn
          have hsmall : nlRun ('\n' :: cs) < 3 := nlRun_small_of_none hm
          have hcs : nlRun ('\n' :: cs) = 1 + nlRun cs := nlRun_cons_ws_nl cs
          have hcs2 : nlRun cs < 2 := by omega
          have hb2 : nlRun (scanRep matchTriple f cs) = nlRun cs := by
            rw [ihb]; omega
          have houtRun : nlRun ('\n' :: scanRep matchTriple f cs) =
              1 + nlRun (scanRep matchTriple f cs) := nlRun_cons_ws_nl _
          constructor
          · rw [hout, anyMatch]
            have hn : matchTriple ('\n' :: scanRep matchTriple f cs) = none := by
              apply matchTriple_none_of_small
              rw [houtRun, hb2]
              omega
            rw [hn, iha]
            rfl
          · rw [hout, houtRun, hb2, hcs]
            omega
        · by_cases hws : isWsChar c = true
          · constructor
            · rw [hout, anyMatch, matchTriple_not_nl hcn, iha]
              rfl
            · rw [hout, nlRun_cons_ws_sp c hws hcn, nlRun_cons_ws_sp c hws hcn, ihb]
          · have hws' : isWsChar c = false := Bool.of_not_eq_true hws
            constructor
            · rw [hout, anyMatch, matchTriple_not_nl hcn, iha]
              rfl
            · rw [hout, nlRun_cons_not_ws c hws', nlRun_cons_not_ws c hws']
              omega
      | some kr =>
        obtain ⟨k, rep⟩ := kr
        have hout : scanRep matchTriple (f+1) (c :: cs) =
            rep ++ scanRep matchTriple f (List.drop k (c :: cs)) := by
          rw [scanRep, hm]
        obtain ⟨hrep, hk1, h3, hdrop0⟩ := matchTriple_inv hm
        have hdlen : (List.drop k (c :: cs)).length ≤ f := by
          rw [List.length_drop]
          have : (c :: cs).length ≤ f + 1 := hlen
          omega
        obtain ⟨iha, ihb⟩ := ih _ hdlen
        have hb0 : nlRun (scanRep matchTriple f (List.drop k (c :: cs))) = 0 := by
          rw [ihb, hdrop0]
          omega
        subst hrep
        have hout2 : scanRep matchTriple (f+1) (c :: cs) =
            '\n' :: '\n' :: scanRep matchTriple f (List.drop k (c :: cs)) := by
          rw [hout]; rfl
        have hrun1 : nlRun ('\n' :: scanRep matchTriple f (List.drop k (c :: cs))) = 1 := by
          rw [nlRun_cons_ws_nl, hb0]
        have hrun2 : nlRun ('\n' :: '\n' :: scanRep matchTriple f (List.drop k (c :: cs))) = 2 := by
          rw [nlRun_cons_ws_nl, hrun1]
        constructor
        · rw [hout2, anyMatch, anyMatch]
          have hn1 : matchTriple ('\n' :: '\n' :: scanRep matchTriple f (List.drop k (c :: cs))) =
              none := by
            apply matchTriple_none_of_small
            rw [hrun2]
            omega
          have hn2 : matchTriple ('\n' :: scanRep matchTriple f (List.drop k (c :: cs))) =
              none := by
            apply matchTriple_none_of_small
            rw [hrun1]
            omega
          rw [hn1, hn2, iha]
          rfl
        · rw [hout2, hrun2]
          have : nlRun (c :: cs) ≥ 3 := h3
          omega

theorem nlRun_append_le : ∀ (s post : List Char), nlRun s ≤ nlRun (s ++ post)
  | [], _ => Nat.zero_le _
  | c :: cs, post => by
    by_cases hws : isWsChar c = true
    · by_cases hc : c = '\n'
      · subst hc
        rw [nlRun_cons_ws_nl, show ('\n' :: cs) ++ post = '\n' :: (cs ++ post) from rfl,
          nlRun_cons_ws_nl]
        exact Nat.add_le_add_left (nlRun_append_le cs post) 1
      · rw [nlRun_cons_ws_sp c hws hc, show (c :: cs) ++ post = c :: (cs ++ post) from rfl,
          nlRun_cons_ws_sp c hws hc]
        exact nlRun_append_le cs post
    · rw [nlRun_cons_not_ws c (Bool.of_not_eq_true hws)]
      exact Nat.zero_le _

theorem matchTriple_fire_mono {s : List Char} (post : List Char)
    (h : (matchTriple s).isSome = true) : (matchTriple (s ++ post)).isSome = true := by
  cases s with
  | nil => exact absurd h (by decide)
  | cons c cs =>
    by_cases hc : c = '\n'
    · subst hc
      cases hm : matchTriple ('\n' :: cs) with
      | none => rw [hm] at h; exact absurd h (by decide)
      | some kr =>
        obtain ⟨k, rep⟩ := kr
        obtain ⟨-, -, h3, -⟩ := matchTriple_inv hm
        have hle := nlRun_append_le ('\n' :: cs) post
        rw [show ('\n' :: cs) ++ post = '\n' :: (cs ++ post) from rfl] at hle ⊢
        exact matchTriple_nl_fires (by omega)
    · rw [matchTriple_not_nl hc] at h
      exact absurd h (by decide)

theorem anyMatch_false_suffix {m : List Char → Option (Nat × List Char)} :
    ∀ {l s : List Char}, anyMatch m l = false → s <:+ l → (m s).isSome = false
  | [], s, h, hs => by
    rw [List.suffix_nil.mp hs]
    exact h
  | c :: cs, s, h, hs => by
    rw [anyMatch] at h
    obtain ⟨h1, h2⟩ := Bool.or_eq_false_iff.mp h
    rcases List.suffix_cons_iff.mp hs with heq | hsuf
    · rw [heq]; exact h1
    · exact anyMatch_false_suffix h2 hsuf

theorem exists_fire_of_anyMatch {m : List Char → Option (Nat × List Char)} :
    ∀ {l : List Char}, anyMatch m l = true → ∃ s, s <:+ l ∧ (m s).isSome = true
  | [], h => ⟨[], List.suffix_refl _, h⟩
  | c :: cs, h => by
    rw [anyMatch] at h
    cases hf : (m (c :: cs)).isSome with
    | true => exact ⟨c :: cs, List.suffix_refl _, hf⟩
    | false =>
      rw [hf, Bool.false_or] at h
      obtain ⟨s, hs, hfire⟩ := exists_fire_of_anyMatch h
      exact ⟨s, hs.trans (List.suffix_cons c cs), hfire⟩

/-- A whole string free of 3+ line-break runs has every infix free of them:
the triple matcher is monotone under right extension and `anyMatch` scans
every suffix. -/
theorem anyMatch_triple_mono {a b : List Char}
    (h : anyMatch matchTriple a = false) (hib : b <:+: a) :
    anyMatch matchTriple b = false := by
  by_contra hb
  have hb' : anyMatch matchTriple b = true := Bool.of_not_eq_false hb
  obtain ⟨t, ht, hfire⟩ := exists_fire_of_anyMatch hb'
  obtain ⟨pre, post, hpp⟩ := hib
  obtain ⟨u, hu⟩ := ht
  have hsuf : t ++ post <:+ a := by
    refine ⟨pre ++ u, ?_⟩
    rw [← hpp, ← hu]
    simp [List.append_assoc]
  have hnone := anyMatch_false_suffix h hsuf
  have hsome := matchTriple_fire_mono post hfire
  rw [hsome] at hnone
  exact absurd hnone (by decide)

theorem trimList_sub (l : List Char) : trimList l <:+: l := by
  unfold trimList
  have h1 : l.dropWhile isWsChar <:+ l := List.dropWhile_suffix _
  obtain ⟨u, hu⟩ := (List.dropWhile_suffix (l := (l.dropWhile isWsChar).reverse) isWsChar)
  have h3 : ((l.dropWhile isWsChar).reverse.dropWhile isWsChar).reverse <+:
      l.dropWhile isWsChar := by
    refine ⟨u.reverse, ?_⟩
    have h4 := congrArg List.reverse hu
    simpa [List.reverse_append] using h4
  exact h3.isInfix.trans h1.isInfix

theorem anyMatch_triple_trim_scan (f : Nat) (l : List Char) (h : l.length ≤ f) :
    anyMatch matchTriple (trimList (scanRep matchTriple f l)) = false :=
  anyMatch_triple_mono (scanRep_triple_inv f l h).1 (trimList_sub _)

/-- The filter's own output never contains a run of three or more line
breaks: the collapse pass removes them all and the final trim cannot create
one. -/
theorem filterAIResponse_noTriple (x : String) :
    anyMatch matchTriple (filterAIResponse x).data = false :=
  anyMatch_triple_trim_scan _ _ (Nat.le_succ _)

/-- C4 (amended): the content filter is idempotent on every input whose
filtered output contains no timestamp token, no `*Thinking...*` marker and no
`> **` reasoning lead-in (the output can never contain a three-plus
line-break run, so no condition on those is needed); in general a strip step
can splice adjacent text into a new strippable token and a second
application differs (see the counterexample). -/
theorem C4_filter_idempotent_amended (x : String)
    (h1 : anyMatch matchTimestamp (filterAIResponse x).data = false)
    (h2 : anyMatch matchThinking (filterAIResponse x).data = false)
    (h3 : anyMatch matchBlockquote (filterAIResponse x).data = false) :
    filterAIResponse (filterAIResponse x) = filterAIResponse x := by
  have h4 : anyMatch matchTriple (filterAIResponse x).data = false :=
    filterAIResponse_noTriple x
  have htrim : trimList (filterAIResponse x).data = (filterAIResponse x).data :=
    filterAIResponse_data_trimmed x
  generalize hgen : filterAIResponse x = s at h1 h2 h3 h4 htrim ⊢
  show String.mk (trimList (scanRep matchTriple _ (scanRep matchBlockquote _
    (scanRep matchThinking _ (scanRep matchTimestamp _ s.data))))) = s
  rw [scanRep_no_match _ _ h1, scanRep_no_match _ _ h2, scanRep_no_match _ _ h3,
    scanRep_no_match _ _ h4, htrim, mk_data]

/-- C4 (counterexample): deleting the thinking marker splices the
surrounding text into a timestamp that only a second application strips, so
`filter (filter x) ≠ filter x` at this input. -/
theorem C4_counterexample :
    filterAIResponse (filterAIResponse "2025/1/1*Thinking...* 1:1:1") ≠
      filterAIResponse "2025/1/1*Thinking...* 1:1:1" := by decide

/-- C4 (witness). -/
theorem C4_witness :
    anyMatch matchTimestamp (filterAIResponse "a\n\n\n\nb").data = false ∧
    anyMatch matchThinking (filterAIResponse "a\n\n\n\nb").data = false ∧
    anyMatch matchBlockquote (filterAIResponse "a\n\n\n\nb").data = false ∧
    filterAIResponse (filterAIResponse "a\n\n\n\nb") = filterAIResponse "a\n\n\n\nb" :=
  ⟨by decide, by decide, by decide,
   C4_filter_idempotent_amended "a\n\n\n\nb" (by decide) (by decide) (by decide)⟩

/-- C5: on the scenario input the extractor returns exactly the Markdown URL
and the bare URL, in that order, with the trailing comma not part of the
second asset. -/
theorem C5_extractor_scenario :
    extractImageUrlsFromText "![pic](https://example.com/a.png) more text http://x.io/b.jpg," =
      ["https://example.com/a.png", "http://x.io/b.jpg"] := by decide

/-- C7: the `Hel`/`lo`/`[DONE]` frame sequence accumulates the deltas in
order, ends with filtered content `"Hello"` and the DONE state. -/
theorem C7_stream_scenario :
    (runStream [frameHel, frameLo, frameDone]).content = "Hello" ∧
    (runStream [frameHel, frameLo, frameDone]).raw = "Hello" ∧
    (runStream [frameHel, frameLo, frameDone]).doneSeen = true ∧
    (runStream [frameHel, frameLo, frameDone]).responses.map
        (fun j => match jget (jget (jat (jget (some j) "choices") 0) "delta") "content" with
                  | some (.str s) => s
                  | _ => "") = ["Hel", "lo"] :=
  ⟨rfl, rfl, rfl, rfl⟩

/-- C8: a `data: ` line whose payload fails structured decode (and is not the
sentinel) leaves the ingestor state exactly as it was and processing
continues with the remaining lines; no error escapes. -/
theorem C8_decode_skip (st : SState) (p : String) (ls : List String)
    (h1 : jsParse (jsTrim p) = none) (h2 : jsTrim p ≠ "[DONE]") :
    processLines st (("data: " ++ p) :: ls) = processLines st ls := by
  have hsw : jsStartsWith "data: " ("data: " ++ p) = true := by
    unfold jsStartsWith
    rw [data_append, litPrefix_self_append]
    rfl
  have hdrop : ("data: " ++ p).data.drop 6 = p.data := by
    rw [data_append]
    have h6 : ("data: ".data).length = 6 := rfl
    rw [← h6, List.drop_left]
  rw [processLines, hsw]
  simp only [if_true, hdrop, mk_data]
  rw [if_neg h2, h1]

/-- C8 (witness). -/
theorem C8_witness :
    jsParse (jsTrim "oops \x7bnot json") = none ∧
    jsTrim "oops \x7bnot json" ≠ "[DONE]" ∧
    processLines initSState ["data: oops \x7bnot json", "x"] = processLines initSState ["x"] :=
  ⟨rfl, by decide, C8_decode_skip initSState "oops \x7bnot json" ["x"] rfl (by decide)⟩

/-- C9: the claim says the redirector's filename strips trailing dots; the
route's `GET` only removes reserved characters — its own `sanitizeName`
helper (which does strip trailing dots) is never called — so trailing dots
survive into the `Content-Disposition` filename. -/
theorem C9_download_route_bug :
    downloadGET (some "https://e.com/a.png") (some "evil...") =
      { status := 307, redirectTo := some "https://e.com/a.png",
        contentDisposition := some ("attachment; filename=" ++ String.mk [Char.ofNat 34] ++
          "evil....png" ++ String.mk [Char.ofNat 34]),
        cacheControl := some "no-store" } ∧
    sanitizeName "evil..." = "evil" :=
  ⟨rfl, rfl⟩

/-- C10: `safeUrl` is total (it is a Lean function) and, for every input and
page location, returns either the empty string or the parser-normalized
`href` of an allow-listed-scheme record — and that normalized href can
differ textually from the input, as on a bare https origin. -/
theorem C10_safeUrl_total_normalizing :
    (∀ (base : UrlRec) (u : String),
        safeUrl base u = "" ∨
        ∃ r, parseURL u base = some r ∧ allowedProtocols.contains r.protocol = true ∧
          safeUrl base u = r.href) ∧
    safeUrl pageLoc "https://example.com" = "https://example.com/" ∧
    ("https://example.com/" : String) ≠ "https://example.com" := by
  refine ⟨?_, rfl, by decide⟩
  intro base u
  have hs : safeUrl base u =
      (match parseURL u base with
       | some url => if allowedProtocols.contains url.protocol then url.href else ""
       | none => "") := rfl
  cases hp : parseURL u base with
  | none => left; rw [hs, hp]
  | some r =>
    by_cases hc : allowedProtocols.contains r.protocol
    · right
      refine ⟨r, rfl, hc, ?_⟩
      rw [hs, hp]
      simp only [hc, if_true]
    · left
      rw [hs, hp]
      simp only [if_neg hc]

theorem litPrefix_eq_append :
    ∀ (p l r : List Char), litPrefix p l = some r → l = p ++ r := by
  intro p
  induction p with
  | nil => intro l r h; simp [litPrefix] at h; simp [h]
  | cons c cs ih =>
    intro l r h
    cases l with
    | nil => simp [litPrefix] at h
    | cons a as =>
      rw [litPrefix] at h
      by_cases hac : a = c
      · subst hac
        simp only [if_pos rfl] at h
        have := ih as r h
        simp [this]
      · simp [hac] at h

/-- Elements collected by a scan are captures of the matcher on some suffix
of the input. -/
theorem mem_scanCollect {m : List Char → Option (Nat × List Char)} :
    ∀ (f : Nat) (l cap : List Char), cap ∈ scanCollect m f l →
      ∃ l', l'.IsSuffix l ∧ ∃ k, m l' = some (k, cap) := by
  intro f
  induction f with
  | zero =>
    intro l cap h
    cases l <;> simp [scanCollect] at h
  | succ f ih =>
    intro l cap h
    cases l with
    | nil => simp [scanCollect] at h
    | cons c cs =>
      rw [scanCollect] at h
      cases hm : m (c :: cs) with
      | some kc =>
        obtain ⟨k0, cap0⟩ := kc
        rw [hm] at h
        simp only [List.mem_cons] at h
        rcases h with h | h
        · exact ⟨c :: cs, List.suffix_refl _, k0, by rw [hm, h]⟩
        · rcases ih _ _ h with ⟨l', hsuf, k, hk⟩
          exact ⟨l', hsuf.trans (List.drop_suffix _ _), k, hk⟩
      | none =>
        rw [hm] at h
        rcases ih _ _ h with ⟨l', hsuf, k, hk⟩
        exact ⟨l', hsuf.trans (List.suffix_cons _ _), k, hk⟩

/-- A scan over a string on which the matcher fires somewhere collects at
least one capture (given enough fuel and a matcher that cannot fire on the
empty string). -/
theorem scanCollect_ne_nil {m : List Char → Option (Nat × List Char)}
    (hnil : m [] = none) :
    ∀ (f : Nat) (l : List Char), l.length ≤ f → anyMatch m l = true →
      scanCollect m f l ≠ [] := by
  intro f
  induction f with
  | zero =>
    intro l hlen hm
    have : l = [] := List.eq_nil_of_length_eq_zero (Nat.le_zero.mp hlen)
    rw [this, anyMatch, hnil] at hm
    simp at hm
  | succ f ih =>
    intro l hlen hm
    cases l with
    | nil => rw [anyMatch, hnil] at hm; simp at hm
    | cons c cs =>
      rw [scanCollect]
      cases hmc : m (c :: cs) with
      | some kc => simp
      | none =>
        rw [anyMatch, hmc] at hm
        simp only [Option.isSome_none, Bool.false_or] at hm
        exact ih cs (Nat.le_of_succ_le_succ hlen) hm

theorem anyMatch_append_right {m : List Char → Option (Nat × List Char)} :
    ∀ (xs ys : List Char), anyMatch m ys = true → anyMatch m (xs ++ ys) = true := by
  intro xs ys h
  induction xs with
  | nil => simpa using h
  | cons c cs ih =>
    rw [List.cons_append, anyMatch, ih]
    simp

theorem orElse_inv {α : Type} {a b : Option α} {x : α} (h : (a <|> b) = some x) :
    a = some x ∨ b = some x := by
  cases a with
  | none => right; simpa using h
  | some v => left; simpa using h

theorem anyMatch_of_fire {m : List Char → Option (Nat × List Char)} {l : List Char}
    (h : (m l).isSome = true) : anyMatch m l = true := by
  cases l with
  | nil => rw [anyMatch]; exact h
  | cons c cs => rw [anyMatch, h]; rfl

/-- Inversion of the data-URI matcher: a match decomposes the input into the
fixed prefix, one of the four formats, the base64 marker, a non-empty
maximal base64 run and the remainder; the capture is everything up to the
run's end. -/
theorem matchDataUri_inv {l : List Char} {k : Nat} {cap : List Char}
    (h : matchDataUri l = some (k, cap)) :
    ∃ fmt run rest,
      (fmt = "png".data ∨ fmt = "jpeg".data ∨ fmt = "jpg".data ∨ fmt = "webp".data) ∧
      l = "data:image/".data ++ fmt ++ ";base64,".data ++ run ++ rest ∧
      run ≠ [] ∧ (∀ c ∈ run, isB64Char c = true) ∧
      cap = "data:image/".data ++ fmt ++ ";base64,".data ++ run := by
  unfold matchDataUri at h
  split at h
  · exact absurd h (by simp)
  rename_i r h0
  split at h
  · exact absurd h (by simp)
  rename_i r2 h1
  have hfmt : ∃ fmt, (fmt = "png".data ∨ fmt = "jpeg".data ∨ fmt = "jpg".data ∨
      fmt = "webp".data) ∧ litPrefix fmt r = some r2 := by
    rcases orElse_inv h1 with h' | h'
    · exact ⟨_, Or.inl rfl, h'⟩
    · rcases orElse_inv h' with h'' | h''
      · exact ⟨_, Or.inr (Or.inl rfl), h''⟩
      · rcases orElse_inv h'' with h3 | h3
        · exact ⟨_, Or.inr (Or.inr (Or.inl rfl)), h3⟩
        · exact ⟨_, Or.inr (Or.inr (Or.inr rfl)), h3⟩
  rcases hfmt with ⟨fmt, hfmt4, hfp⟩
  split at h
  · exact absurd h (by simp)
  rename_i r3 h2
  have hl : l = "data:image/".data ++ r := litPrefix_eq_append _ _ _ h0
  have hr : r = fmt ++ r2 := litPrefix_eq_append _ _ _ hfp
  have hr2 : r2 = ";base64,".data ++ r3 := litPrefix_eq_append _ _ _ h2
  split at h
  case _ c z =>
    split at h
    case isTrue hb =>
      have hinj := Option.some.inj h
      have hcap : l.take (l.length - ((c :: z).dropWhile isB64Char).length) = cap :=
        congrArg Prod.snd hinj
      refine ⟨fmt, (c :: z).takeWhile isB64Char, (c :: z).dropWhile isB64Char,
        hfmt4, ?_, ?_, ?_, ?_⟩
      · rw [hl, hr, hr2]
        simp [List.takeWhile_append_dropWhile, List.append_assoc]
      · simp [List.takeWhile_cons, hb]
      · intro c' hc'
        exact List.mem_takeWhile_imp hc'
      · rw [← hcap]
        have hlen : l = ("data:image/".data ++ fmt ++ ";base64,".data ++
            (c :: z).takeWhile isB64Char) ++ (c :: z).dropWhile isB64Char := by
          rw [hl, hr, hr2]
          simp [List.takeWhile_append_dropWhile, List.append_assoc]
        rw [hlen, List.length_append, Nat.add_sub_cancel, List.take_left]
    case isFalse => exact absurd h (by simp)
  case _ => exact absurd h (by simp)

/-- The data-URI matcher fires at the start of a literal whose payload head
is a base64 char (whatever follows). -/
theorem matchDataUri_fire (c : Char) (hc : isB64Char c = true) (z : List Char) :
    (matchDataUri ("data:image/png;base64,".data ++ (c :: z))).isSome = true := by
  have hsplit : "data:image/png;base64,".data ++ (c :: z) =
      "data:image/".data ++ ("png".data ++ (";base64,".data ++ (c :: z))) := by
    simp [← List.append_assoc]
  rw [hsplit]
  unfold matchDataUri
  simp only [litPrefix_self_append]
  simp [litPrefix, hc]

/-- A complete literal (prefix, format, marker, non-empty all-base64 run and
nothing after) matches in full, capturing itself. -/
theorem matchDataUri_full (fmt run : List Char)
    (hfmt : fmt = "png".data ∨ fmt = "jpeg".data ∨ fmt = "jpg".data ∨ fmt = "webp".data)
    (hne : run ≠ []) (hall : ∀ c ∈ run, isB64Char c = true) :
    matchDataUri ("data:image/".data ++ fmt ++ ";base64,".data ++ run) =
      some (("data:image/".data ++ fmt ++ ";base64,".data ++ run).length,
            "data:image/".data ++ fmt ++ ";base64,".data ++ run) := by
  cases run with
  | nil => exact absurd rfl hne
  | cons c z =>
    have hc : isB64Char c = true := hall c (List.mem_cons_self _ _)
    have hdw : (c :: z).dropWhile isB64Char = [] :=
      List.dropWhile_eq_nil_iff.mpr (fun x hx => hall x hx)
    have hassoc : "data:image/".data ++ fmt ++ ";base64,".data ++ (c :: z) =
        "data:image/".data ++ (fmt ++ (";base64,".data ++ (c :: z))) := by
      simp [List.append_assoc]
    rw [hassoc]
    unfold matchDataUri
    simp only [litPrefix_self_append]
    have hfmtMatch : (litPrefix ("png".data) (fmt ++ (";base64,".data ++ (c :: z))) <|>
        litPrefix ("jpeg".data) (fmt ++ (";base64,".data ++ (c :: z))) <|>
        litPrefix ("jpg".data) (fmt ++ (";base64,".data ++ (c :: z))) <|>
        litPrefix ("webp".data) (fmt ++ (";base64,".data ++ (c :: z)))) =
        some (";base64,".data ++ (c :: z)) := by
      rcases hfmt with hf | hf | hf | hf <;> subst hf
      · rw [litPrefix_self_append]; rfl
      · have e1 : litPrefix ("png".data) ("jpeg".data ++ (";base64,".data ++ (c :: z))) =
          none := rfl
        rw [e1, litPrefix_self_append]; rfl
      · have e1 : litPrefix ("png".data) ("jpg".data ++ (";base64,".data ++ (c :: z))) =
          none := rfl
        have e2 : litPrefix ("jpeg".data) ("jpg".data ++ (";base64,".data ++ (c :: z))) =
          none := rfl
        rw [e1, e2, litPrefix_self_append]; rfl
      · have e1 : litPrefix ("png".data) ("webp".data ++ (";base64,".data ++ (c :: z))) =
          none := rfl
        have e2 : litPrefix ("jpeg".data) ("webp".data ++ (";base64,".data ++ (c :: z))) =
          none := rfl
        have e3 : litPrefix ("jpg".data) ("webp".data ++ (";base64,".data ++ (c :: z))) =
          none := rfl
        rw [e1, e2, e3, litPrefix_self_append]; rfl
    rw [hfmtMatch]
    simp only [litPrefix_self_append]
    simp only [hc, if_true, hdw, List.length_nil, Nat.sub_zero, List.take_length]

/-- C6 (amended): a response body containing a well-formed
`data:image/png;base64,\<payload\>` literal anywhere (arbitrary decoration
before and after — the match is not anchored) yields a non-empty extraction,
and every extracted element occurs verbatim as a substring of the body and is
itself a complete well-formed data-image literal.  The specific literal can
be missed only when an earlier overlapping greedy match swallows its prefix
(see the counterexample). -/
theorem C6_extract_literal_amended (pre payload post : String)
    (h1 : payload ≠ "") (h2 : ∀ c ∈ payload.data, isB64Char c = true) :
    extractDataUris (pre ++ "data:image/png;base64," ++ payload ++ post) ≠ [] ∧
    ∀ u ∈ extractDataUris (pre ++ "data:image/png;base64," ++ payload ++ post),
      u.data.IsInfix (pre ++ "data:image/png;base64," ++ payload ++ post).data ∧
      matchDataUri u.data = some (u.data.length, u.data) := by
  constructor
  · -- non-emptiness: the matcher fires at the literal's position
    have hd : payload.data ≠ [] := by
      intro h0
      exact h1 (by rw [← mk_data payload, h0])
    cases hpd : payload.data with
    | nil => exact absurd hpd hd
    | cons c z =>
      have hc : isB64Char c = true := h2 c (by rw [hpd]; exact List.mem_cons_self _ _)
      have hfire := matchDataUri_fire c hc (z ++ post.data)
      have hany : anyMatch matchDataUri
          ((pre ++ "data:image/png;base64," ++ payload ++ post).data) = true := by
        have hsplit : (pre ++ "data:image/png;base64," ++ payload ++ post).data =
            pre.data ++ ("data:image/png;base64,".data ++ (c :: (z ++ post.data))) := by
          simp [data_append, hpd, List.append_assoc]
        rw [hsplit]
        exact anyMatch_append_right _ _ (anyMatch_of_fire hfire)
      have hne := scanCollect_ne_nil (m := matchDataUri) rfl
        ((pre ++ "data:image/png;base64," ++ payload ++ post).data.length + 1)
        ((pre ++ "data:image/png;base64," ++ payload ++ post).data)
        (Nat.le_succ _) hany
      intro h0
      apply hne
      unfold extractDataUris at h0
      exact List.map_eq_nil_iff.mp h0
  · intro u hu
    unfold extractDataUris at hu
    rcases List.mem_map.mp hu with ⟨cap, hcap, hmk⟩
    rcases mem_scanCollect _ _ _ hcap with ⟨l', hsuf, k, hm⟩
    rcases matchDataUri_inv hm with ⟨fmt, run, rest, hfmt4, hdec, hne, hall, hcapEq⟩
    have hud : u.data = cap := by rw [← hmk]
    constructor
    · -- verbatim: the capture is a prefix of the matched suffix
      have hpre : cap.IsPrefix l' := by
        refine ⟨rest, ?_⟩
        simp [hcapEq, hdec, List.append_assoc]
      rw [hud]
      exact hpre.isInfix.trans hsuf.isInfix
    · rw [hud, hcapEq]
      exact matchDataUri_full fmt run hfmt4 hne hall

/-- C6 (counterexample): this body contains the well-formed literal
`data:image/png;base64,AA` (preceded by decoration), yet the extractor does
not return it — the greedy earlier match swallows its `data` prefix — so the
claim as stated (every contained literal is returned verbatim) is false. -/
theorem C6_counterexample :
    extractDataUris c6Body = ["data:image/png;base64,XXdata"] ∧
    ("data:image/png;base64,AA").data.IsInfix c6Body.data ∧
    "data:image/png;base64,AA" ∉ extractDataUris c6Body := by
  refine ⟨by decide, ⟨"data:image/png;base64,XX".data, [], by decide⟩, by decide⟩

/-- C6 (witness). -/
theorem C6_witness :
    ("AAAA" : String) ≠ "" ∧ (∀ c ∈ ("AAAA" : String).data, isB64Char c = true) ∧
    extractDataUris ("decor " ++ "data:image/png;base64," ++ "AAAA" ++ " end.") ≠ [] :=
  ⟨by decide, by decide,
   (C6_extract_literal_amended "decor " "AAAA" " end." (by decide) (by decide)).1⟩

theorem mem_dedupKeepFirst {u : String} :
    ∀ (l acc : List String),
      u ∈ l.foldl (fun acc s => if acc.contains s then acc else acc ++ [s]) acc →
      u ∈ acc ∨ u ∈ l := by
  intro l
  induction l with
  | nil => intro acc h; exact Or.inl h
  | cons s t ih =>
    intro acc h
    rw [List.foldl_cons] at h
    rcases ih _ h with h' | h'
    · by_cases hc : acc.contains s
      · rw [if_pos hc] at h'
        exact Or.inl h'
      · rw [if_neg hc] at h'
        rcases List.mem_append.mp h' with h'' | h''
        · exact Or.inl h''
        · right; rw [List.mem_singleton.mp h'']; exact List.mem_cons_self _ _
    · right; exact List.mem_cons_of_mem _ h'

theorem mem_dedup {u : String} {l : List String} (h : u ∈ dedupKeepFirst l) : u ∈ l := by
  rcases mem_dedupKeepFirst l [] h with h' | h'
  · exact absurd h' (List.not_mem_nil _)
  · exact h'

theorem mem_foldl_append {α : Type} {u : String} (g : α → List String) :
    ∀ (l : List α) (acc : List String),
      u ∈ l.foldl (fun a b => a ++ g b) acc → u ∈ acc ∨ ∃ b ∈ l, u ∈ g b := by
  intro l
  induction l with
  | nil => intro acc h; exact Or.inl h
  | cons b t ih =>
    intro acc h
    rw [List.foldl_cons] at h
    rcases ih _ h with h' | h'
    · rcases List.mem_append.mp h' with h'' | h''
      · exact Or.inl h''
      · exact Or.inr ⟨b, List.mem_cons_self _ _, h''⟩
    · rcases h' with ⟨b', hb', hu⟩
      exact Or.inr ⟨b', List.mem_cons_of_mem _ hb', hu⟩

/-- Every element the data-URI extractor returns begins with `data:image/`. -/
theorem extractDataUris_starts {s u : String} (h : u ∈ extractDataUris s) :
    jsStartsWith "data:image/" u = true := by
  unfold extractDataUris at h
  rcases List.mem_map.mp h with ⟨cap, hcap, hmk⟩
  rcases mem_scanCollect _ _ _ hcap with ⟨l', _, k, hm⟩
  rcases matchDataUri_inv hm with ⟨fmt, run, rest, _, _, _, _, hcapEq⟩
  have hud : u.data = cap := by rw [← hmk]
  unfold jsStartsWith
  rw [hud, hcapEq]
  have : "data:image/".data ++ fmt ++ ";base64,".data ++ run =
      "data:image/".data ++ (fmt ++ (";base64,".data ++ run)) := by
    simp [List.append_assoc]
  rw [this, litPrefix_self_append]
  rfl

theorem mem_blockUrlsDoGen {base : UrlRec} {b : Js} {u : String}
    (h : u ∈ blockUrlsDoGen base b) :
    (∃ v, u = safeUrl base v) ∨ jsStartsWith "data:image/" u = true := by
  unfold blockUrlsDoGen at h
  rcases List.mem_append.mp h with h' | h'
  · split at h'
    · split at h'
      · rename_i v _
        left
        exact ⟨_, List.mem_singleton.mp h'⟩
      · exact absurd h' (List.not_mem_nil _)
    · exact absurd h' (List.not_mem_nil _)
  · split at h'
    · split at h'
      · rename_i s _
        rcases List.mem_append.mp h' with h'' | h''
        · rcases List.mem_map.mp h'' with ⟨v, _, hv⟩
          exact Or.inl ⟨v, hv.symm⟩
        · exact Or.inr (extractDataUris_starts h'')
      · exact absurd h' (List.not_mem_nil _)
    · exact absurd h' (List.not_mem_nil _)

theorem mem_imagesFallback {base : UrlRec} {ims : List Js} {u : String}
    (h : u ∈ imagesFallback base ims) : ∃ v, u = safeUrl base v := by
  unfold imagesFallback at h
  rcases List.mem_filterMap.mp h with ⟨im, _, heq⟩
  split at heq
  · split at heq
    · exact ⟨_, (Option.some.inj heq).symm⟩
    · exact absurd heq (by simp)
  · exact absurd heq (by simp)

theorem mem_doGenStage0 {base : UrlRec} {json : Option Js} {u : String}
    (h : u ∈ doGenStage0 base json) :
    (∃ v, u = safeUrl base v) ∨ jsStartsWith "data:image/" u = true := by
  unfold doGenStage0 at h
  split at h
  · rcases mem_foldl_append _ _ _ h with h' | ⟨b, _, hb⟩
    · exact absurd h' (List.not_mem_nil _)
    · exact mem_blockUrlsDoGen hb
  · rcases List.mem_map.mp h with ⟨v, _, hv⟩
    exact Or.inl ⟨v, hv.symm⟩
  · exact absurd h (List.not_mem_nil _)

theorem mem_doGenStage1 {base : UrlRec} {json : Option Js} {urls : List String} {u : String}
    (hP : ∀ w ∈ urls, (∃ v, w = safeUrl base v) ∨ jsStartsWith "data:image/" w = true)
    (h : u ∈ doGenStage1 base json urls) :
    (∃ v, u = safeUrl base v) ∨ jsStartsWith "data:image/" u = true := by
  unfold doGenStage1 at h
  split at h
  · split at h
    · split at h
      · rcases List.mem_append.mp h with h' | h'
        · exact hP u h'
        · rcases List.mem_map.mp h' with ⟨v, _, hv⟩
          exact Or.inl ⟨v, hv.symm⟩
      · exact hP u h
    · exact hP u h
  · exact hP u h

theorem mem_doGenStage2 {base : UrlRec} {json : Option Js} {urls : List String} {u : String}
    (hP : ∀ w ∈ urls, (∃ v, w = safeUrl base v) ∨ jsStartsWith "data:image/" w = true)
    (h : u ∈ doGenStage2 base json urls) :
    (∃ v, u = safeUrl base v) ∨ jsStartsWith "data:image/" u = true := by
  unfold doGenStage2 at h
  split at h
  · split at h
    · rcases List.mem_append.mp h with h' | h'
      · exact hP u h'
      · rcases mem_foldl_append _ _ _ h' with h'' | ⟨c, _, hc⟩
        · exact absurd h'' (List.not_mem_nil _)
        · revert hc
          split
          · intro hc
            rcases List.mem_map.mp hc with ⟨v, _, hv⟩
            exact Or.inl ⟨v, hv.symm⟩
          · intro hc
            exact absurd hc (List.not_mem_nil _)
    · exact hP u h
  · exact hP u h

theorem mem_doGenStage3 {base : UrlRec} {json : Option Js} {urls : List String} {u : String}
    (hP : ∀ w ∈ urls, (∃ v, w = safeUrl base v) ∨ jsStartsWith "data:image/" w = true)
    (h : u ∈ doGenStage3 base json urls) :
    (∃ v, u = safeUrl base v) ∨ jsStartsWith "data:image/" u = true := by
  unfold doGenStage3 at h
  split at h
  · rcases List.mem_append.mp h with h' | h'
    · exact hP u h'
    · rcases List.mem_map.mp h' with ⟨v, _, hv⟩
      exact Or.inl ⟨v, hv.symm⟩
  · exact hP u h

theorem mem_doGenStage4 {base : UrlRec} {json : Option Js} {urls : List String} {u : String}
    (hP : ∀ w ∈ urls, (∃ v, w = safeUrl base v) ∨ jsStartsWith "data:image/" w = true)
    (h : u ∈ doGenStage4 base json urls) :
    (∃ v, u = safeUrl base v) ∨ jsStartsWith "data:image/" u = true := by
  unfold doGenStage4 at h
  split at h
  · split at h
    · exact Or.inl (mem_imagesFallback h)
    · exact hP u h
  · exact hP u h

theorem mem_doGenJsonUrls {base : UrlRec} {json : Option Js} {u : String}
    (h : u ∈ doGenJsonUrls base json) :
    (∃ v, u = safeUrl base v) ∨ jsStartsWith "data:image/" u = true := by
  unfold doGenJsonUrls at h
  exact mem_doGenStage4 (fun w hw => mem_doGenStage3 (fun w hw => mem_doGenStage2
    (fun w hw => mem_doGenStage1 (fun w hw => mem_doGenStage0 hw) hw) hw) hw) h

/-- C2 (amended): urls recovered through the JSON tiers of `doGenerate` are
either passed through `safeUrl` or are `data:image/` literals from the
data-URI extractor (never validated, but `data:`-schemed by construction);
urls found by the FIRST tier — plain extraction over the raw response text —
are stored exactly as extracted, without any validation, so an `http` url in
the raw body is stored (see the counterexample). -/
theorem C2_url_validation_amended (base : UrlRec) (status : Nat) (txt : String)
    (ok : Bool) (urls : List String) (h : doGenUrls base status txt ok = .ok urls) :
    ∀ u ∈ urls,
      u ∈ extractImageUrlsFromText txt ∨ (∃ v, u = safeUrl base v) ∨
      jsStartsWith "data:image/" u = true := by
  intro u hu
  simp only [doGenUrls] at h
  split at h
  · have : extractImageUrlsFromText txt = urls := Except.ok.inj h
    left; rw [this]; exact hu
  · split at h
    · exact absurd h (by simp)
    · split at h
      · exact absurd h (by simp)
      · have : (dedupKeepFirst (doGenJsonUrls base (jsParse txt))).filter
            (fun u => u ≠ "") = urls := Except.ok.inj h
        rw [← this] at hu
        have hu2 : u ∈ dedupKeepFirst (doGenJsonUrls base (jsParse txt)) :=
          (List.mem_filter.mp hu).1
        exact Or.inr (mem_doGenJsonUrls (mem_dedup hu2))

/-- C2 (counterexample): an `http` url appearing in the raw response body is
stored verbatim by the first tier of `doGenerate`, although the validator
rejects the `http` scheme — the claim that every stored url passed the
allow-list validator is false. -/
theorem C2_counterexample :
    doGenUrls pageLoc 200 "see http://x.io/b.jpg" true = .ok ["http://x.io/b.jpg"] ∧
    safeUrl pageLoc "http://x.io/b.jpg" = "" :=
  ⟨rfl, rfl⟩

/-- C2 (witness). -/
theorem C2_witness :
    doGenUrls pageLoc 200 "go https://a.io/x.png now" true = .ok ["https://a.io/x.png"] ∧
    ("https://a.io/x.png" ∈ extractImageUrlsFromText "go https://a.io/x.png now" ∨
     (∃ v, "https://a.io/x.png" = safeUrl pageLoc v) ∨
     jsStartsWith "data:image/" "https://a.io/x.png" = true) :=
  ⟨rfl, C2_url_validation_amended pageLoc 200 "go https://a.io/x.png now" true
    ["https://a.io/x.png"] rfl "https://a.io/x.png" (List.mem_singleton.mpr rfl)⟩

/-- A retry content block with `type: "text"` but no string `text` payload
makes the retry extraction throw a `TypeError`: the run's outcome is the
surfaced error, not the terminal no-image message, and still no third
request is issued. -/
theorem generateModel_crash_payload :
    generateModel pageLoc "a cat" none
        (some (.obj [("choices", .arr [.obj [("message",
          .obj [("content", .arr [.obj [("type", .str "text")]])])]])])) =
      { requests := 2, retryPrompt := some (ensureImageReturnP "a cat" ++ retrySuffix),
        outcome := .error (.typeError none) } := rfl

/-- C3: the retry controller of `generate` issues at most one additional
request on every path (also when the retry extraction throws); when the
first extraction is empty and the retry extraction completes with zero
assets it has issued exactly one retry whose prompt is the ensured prompt
plus the stricter image-only instruction, and it surfaces the first 200
characters of a textual refusal (or the generic no-image message) without
any further request. -/
theorem C3_retry_budget (base : UrlRec) (p : String) (r1 r2 : Option Js) :
    (generateModel base p r1 r2).requests ≤ 2 ∧
    (genExtract1 base r1 = [] → genExtract2 base r2 = .ok [] →
      generateModel base p r1 r2 =
        { requests := 2, retryPrompt := some (ensureImageReturnP p ++ retrySuffix),
          outcome := .noImage (terminalReason r2) }) := by
  constructor
  · simp only [generateModel]
    split
    · split
      · norm_num
      · split <;> norm_num
    · norm_num
  · intro h1 h2
    simp only [generateModel]
    rw [if_pos h1, h2]
    rfl

/-- C3 (witness). -/
theorem C3_witness :
    genExtract1 pageLoc none = [] ∧ genExtract2 pageLoc none = .ok [] ∧
    generateModel pageLoc "a cat" none none =
      { requests := 2, retryPrompt := some (ensureImageReturnP "a cat" ++ retrySuffix),
        outcome := .noImage "未返回图片" } :=
  ⟨rfl, rfl, by
    have h := (C3_retry_budget pageLoc "a cat" none none).2 rfl rfl
    rw [h]
    rfl⟩

theorem length_bigA (n : Nat) : (bigA n).length = n := by
  rw [bigA, String.length_mk, List.length_replicate]

theorem jsonEscape_bigA (n : Nat) : jsonEscape (bigA n) = bigA n := by
  unfold jsonEscape bigA
  rw [data_mk]
  congr 1
  induction n with
  | zero => rfl
  | succ n ih => rw [List.replicate_succ, List.foldr_cons, ih]; rfl

theorem jsonQuote_bigA_length (n : Nat) : (jsonQuote (bigA n)).length = n + 2 := by
  unfold jsonQuote
  rw [jsonEscape_bigA, String.length_append, String.length_append, String.length_mk,
    length_bigA]
  simp
  omega

/-- Serialized length of a chat message whose content is `n` copies of
`a` (no raw content). -/
theorem serializeMessage_bigA_length (ids ts : String) (n : Nat) :
    (serializeMessage { id := ids,
                        role := "user",
                        content := bigA n,
                        rawContent := none,
                        timestamp := ts }).length =
      47 + (jsonQuote ids).length + (jsonQuote ts).length + n := by
  simp only [serializeMessage]
  simp only [String.length_append, String.length_mk, jsonQuote_bigA_length]
  have e1 : (jsonQuote "id").length = 4 := rfl
  have e2 : (jsonQuote "role").length = 6 := rfl
  have e3 : (jsonQuote "user").length = 6 := rfl
  have e4 : (jsonQuote "content").length = 9 := rfl
  have e5 : (jsonQuote "timestamp").length = 11 := rfl
  have e6 : (":" : String).length = 1 := rfl
  have e7 : ("," : String).length = 1 := rfl
  have e8 : ("" : String).length = 0 := rfl
  rw [e1, e2, e3, e4, e5, e6, e7, e8]
  simp
  omega

theorem serializeMessages_c1M0_length : (serializeMessages [c1M0]).length = 55 + c1N0 := by
  have h0 : (serializeMessage c1M0).length = 53 + c1N0 := by
    have := serializeMessage_bigA_length "i" "t" c1N0
    have e1 : (jsonQuote "i").length = 3 := rfl
    have e2 : (jsonQuote "t").length = 3 := rfl
    rw [e1, e2] at this
    rw [show c1M0 = { id := "i",
                      role := "user",
                      content := bigA c1N0,
                      rawContent := none,
                      timestamp := "t" } from rfl, this]
  simp only [serializeMessages, List.map, joinComma]
  rw [String.length_append, String.length_append, h0]
  have e3 : ("[" : String).length = 1 := rfl
  have e4 : ("]" : String).length = 1 := rfl
  rw [e3, e4]
  omega

theorem serializeMessages_c1M01_length :
    (serializeMessages [c1M0, c1M1]).length = 109 + c1N0 + 1000000 := by
  have h0 : (serializeMessage c1M0).length = 53 + c1N0 := by
    have := serializeMessage_bigA_length "i" "t" c1N0
    have e1 : (jsonQuote "i").length = 3 := rfl
    have e2 : (jsonQuote "t").length = 3 := rfl
    rw [e1, e2] at this
    rw [show c1M0 = { id := "i",
                      role := "user",
                      content := bigA c1N0,
                      rawContent := none,
                      timestamp := "t" } from rfl, this]
  have h1 : (serializeMessage c1M1).length = 53 + 1000000 := by
    have := serializeMessage_bigA_length "j" "t" 1000000
    have e1 : (jsonQuote "j").length = 3 := rfl
    have e2 : (jsonQuote "t").length = 3 := rfl
    rw [e1, e2] at this
    rw [show c1M1 = { id := "j",
                      role := "user",
                      content := bigA 1000000,
                      rawContent := none,
                      timestamp := "t" } from rfl, this]
  simp only [serializeMessages, List.map, joinComma]
  rw [String.length_append, String.length_append, String.length_append,
    String.length_append, h0, h1]
  have e3 : ("[" : String).length = 1 := rfl
  have e4 : ("]" : String).length = 1 := rfl
  have e5 : ("," : String).length = 1 := rfl
  rw [e3, e4, e5]
  omega

theorem storageSize_single (k v : String) : storageSize [(k, v)] = k.length + v.length := by
  simp [storageSize]

theorem storeSet_single_hit (k v0 v : String) : storeSet [(k, v0)] k v = [(k, v)] := by
  simp [storeSet]

theorem storageSize_c1Store : storageSize c1Store = 4194304 := by
  rw [show c1Store = [(chatKey, serializeMessages [c1M0])] from rfl, storageSize_single,
    serializeMessages_c1M0_length]
  have e1 : chatKey.length = 13 := rfl
  rw [e1, show c1N0 = 4194236 from rfl]

/-- C1 (counterexample): the size check of `addMessage` uses the PRE-write
stored size, so a write that fits the browser quota can leave the store
above the 4 MB budget: from a store at exactly the budget, appending a ~1 MB
message succeeds with no eviction and the post-append stored size is
5 194 358 bytes > 4 194 304. -/
theorem C1_counterexample :
    storageSize (addMessage c1Quota c1Store [c1M0] c1M1).1 > storageBudget ∧
    (addMessage c1Quota c1Store [c1M0] c1M1).2 = [c1M0, c1M1] := by
  have hnot : ¬ (storageSize c1Store > storageBudget) := by
    rw [storageSize_c1Store]
    unfold storageBudget
    omega
  have hss : storeSet c1Store chatKey (serializeMessages ([c1M0] ++ [c1M1])) =
      [(chatKey, serializeMessages [c1M0, c1M1])] := by
    rw [show ([c1M0] ++ [c1M1]) = [c1M0, c1M1] from rfl,
      show c1Store = [(chatKey, serializeMessages [c1M0])] from rfl, storeSet_single_hit]
  have hnew : storageSize [(chatKey, serializeMessages [c1M0, c1M1])] =
      13 + (109 + c1N0 + 1000000) := by
    rw [storageSize_single, serializeMessages_c1M01_length]
    have e1 : chatKey.length = 13 := rfl
    rw [e1]
  have hset : trySetItem c1Quota c1Store chatKey (serializeMessages ([c1M0] ++ [c1M1])) =
      some [(chatKey, serializeMessages [c1M0, c1M1])] := by
    unfold trySetItem
    rw [hss]
    rw [if_pos]
    rw [hnew]
    unfold c1Quota
    rw [show c1N0 = 4194236 from rfl]
    omega
  constructor
  · simp only [addMessage]
    rw [if_neg hnot, hset]
    show storageSize [(chatKey, serializeMessages [c1M0, c1M1])] > storageBudget
    rw [hnew]
    unfold storageBudget
    rw [show c1N0 = 4194236 from rfl]
    omega
  · simp only [addMessage]
    rw [if_neg hnot, hset]
    rfl

/-- C1 (amended): when the stored size before the write already exceeds the
4 MB budget, `addMessage` proactively evicts down to the most recent 30
messages and persists those; the post-append stored size is NOT guaranteed
to be at or below the budget (the size check uses the pre-write size and
trimming is by count — see the counterexample), and `addRun` appends runs
with no eviction at all. -/
theorem C1_bounded_store_amended :
    (∀ (quota : Nat) (st : Store) (prev : List ChatMessage) (m : ChatMessage) (st2 : Store),
      storageSize st > storageBudget →
      trySetItem quota st chatKey (serializeMessages (lastN 30 (prev ++ [m]))) = some st2 →
      addMessage quota st prev m = (st2, lastN 30 (prev ++ [m]))) ∧
    (∀ (quota : Nat) (st : Store) (runs : List RunEntry) (r : RunEntry)
        (st2 : Store) (rs2 : List RunEntry),
      addRun quota st runs r = some (st2, rs2) →
      rs2 = r :: runs ∧ st2 = storeSet st "runs" (serializeRuns (r :: runs))) := by
  constructor
  · intro quota st prev m st2 h1 h2
    simp only [addMessage]
    rw [if_pos h1, h2]
  · intro quota st runs r st2 rs2 h
    unfold addRun at h
    cases ht : trySetItem quota st "runs" (serializeRuns (r :: runs)) with
    | none => rw [ht] at h; exact absurd h (by simp)
    | some s =>
      rw [ht] at h
      have hinj := Option.some.inj h
      have hrs : rs2 = r :: runs := (congrArg Prod.snd hinj).symm
      have hst : st2 = s := (congrArg Prod.fst hinj).symm
      simp only [trySetItem] at ht
      split at ht
      · exact ⟨hrs, by rw [hst, Option.some.inj ht]⟩
      · exact absurd ht (by simp)

/-- C1 (witness). -/
theorem C1_witness :
    storageSize c1WStore > storageBudget ∧
    trySetItem c1Quota c1WStore chatKey
      (serializeMessages (lastN 30 ([] ++ [c1WMsg]))) =
      some [(chatKey, serializeMessages (lastN 30 ([] ++ [c1WMsg])))] ∧
    addMessage c1Quota c1WStore [] c1WMsg =
      ([(chatKey, serializeMessages (lastN 30 ([] ++ [c1WMsg])))], lastN 30 ([] ++ [c1WMsg])) ∧
    addRun c1Quota [] [] c1WRun = some ([("runs", serializeRuns [c1WRun])], [c1WRun]) ∧
    [c1WRun] = c1WRun :: [] ∧
    [("runs", serializeRuns [c1WRun])] = storeSet [] "runs" (serializeRuns (c1WRun :: [])) := by
  have hbig : storageSize c1WStore > storageBudget := by
    rw [show c1WStore = [(chatKey, bigA 4194305)] from rfl, storageSize_single, length_bigA]
    have e1 : chatKey.length = 13 := rfl
    rw [e1]
    unfold storageBudget
    omega
  have htry : trySetItem c1Quota c1WStore chatKey
      (serializeMessages (lastN 30 ([] ++ [c1WMsg]))) =
      some [(chatKey, serializeMessages (lastN 30 ([] ++ [c1WMsg])))] := rfl
  have hrun : addRun c1Quota [] [] c1WRun =
      some ([("runs", serializeRuns [c1WRun])], [c1WRun]) := rfl
  refine ⟨hbig, htry, ?_, hrun, ?_, ?_⟩
  · exact C1_bounded_store_amended.1 c1Quota c1WStore [] c1WMsg _ hbig htry
  · exact (C1_bounded_store_amended.2 c1Quota [] [] c1WRun _ _ hrun).1.symm ▸ rfl
  · exact C1_bounded_store_amended.2 c1Quota [] [] c1WRun _ _ hrun |>.2 |>.symm ▸ rfl
